import Mathlib

/-!
# Verification of the cats-and-dogs-food core

A shallow embedding of the Sokoban-style core of the repository:

* the cell model and grid state (`Cell`, `LevelGrid`, `makeGridString`,
  `getEmptyBowlCount`, `getCatLocation`, `addCat`, `removeCat`) from
  `src/levels.ts`,
* the transition engine `moveCat` from the same file,
* the breadth-first solver `solve` from `src/solver.ts`, and
* the progress evaluator `computeProgress` from `src/utils.ts`.

JavaScript features are modelled explicitly: a thrown exception becomes an
`Option`/`none` result, a `Set<string>` becomes a `List String` with
membership, out-of-range array reads (`undefined` in JS) become `none` from
`getCell`, and the unbounded `while` loop of `solve` becomes a fuelled
recursion whose fuel (`7 ^ cellCount + 1`, one unit per dequeue) is proved
sufficient: the loop dequeues each canonical key at most once, and there are
at most `7 ^ cellCount` grids of a given shape.
-/

namespace CatsDogs

/-- The seven cell kinds of the Sokoban level format: `#`, `@`, `+`, `$`,
`*`, `.`, ` ` (wall, cat, cat-on-bowl, food, full bowl, empty bowl, floor). -/
inductive Cell where
  | wall
  | cat
  | catBowl
  | food
  | fullBowl
  | bowl
  | empty
deriving DecidableEq, Repr, Fintype

/-- A level grid is a list of rows of cells (`LevelGrid = Cell[][]`). -/
abbrev LevelGrid := List (List Cell)

/-- The character used for each cell in the level format. -/
def Cell.toChar : Cell → Char
  | .wall => '#'
  | .cat => '@'
  | .catBowl => '+'
  | .food => '$'
  | .fullBowl => '*'
  | .bowl => '.'
  | .empty => ' '

/-- `makeGridString`: row-major encoding of the grid, rows joined by `"\n"`
(`grid.map(row => row.join("")).join("\n")`). -/
def makeGridString (grid : LevelGrid) : String :=
  String.intercalate "\n" (grid.map fun row => String.mk (row.map Cell.toChar))

/-- `getEmptyBowlCount`: number of cells equal to `BOWL` or `CAT_BOWL`
(`row.filter(c => c === BOWL || c === CAT_BOWL).length`, summed by `reduce`). -/
def getEmptyBowlCount (grid : LevelGrid) : Nat :=
  grid.foldl
    (fun acc row => acc + (row.filter fun c => c = Cell.bowl ∨ c = Cell.catBowl).length) 0

/-- `getCatLocation`: scan columns `x` (bounded by `grid[0].length`), and for
each column the rows `y`, returning the first `[y, x]` holding `CAT` or
`CAT_BOWL`.  The JS function throws when no cat is found; that is `none`. -/
def getCatLocation (grid : LevelGrid) : Option (Nat × Nat) :=
  (List.range (grid.head?.getD []).length).findSome? fun x =>
    (List.range grid.length).findSome? fun y =>
      match grid[y]?.bind fun row => row[x]? with
      | some c => if c = Cell.cat ∨ c = Cell.catBowl then some (y, x) else none
      | none => none

/-- `addCat`: put the cat on a cell (`BOWL → CAT_BOWL`, `EMPTY → CAT`); the
JS function throws on any other cell, modelled as `none`. -/
def addCat : Cell → Option Cell
  | .bowl => some .catBowl
  | .empty => some .cat
  | _ => none

/-- `removeCat`: take the cat off a cell (`CAT → EMPTY`, `CAT_BOWL → BOWL`);
the JS function throws on any other cell, modelled as `none`. -/
def removeCat : Cell → Option Cell
  | .cat => some .empty
  | .catBowl => some .bowl
  | _ => none

/-- In-range cell lookup, used to state cell facts in lemmas and claims:
`some c` when both indices are in range, `none` otherwise.  The raw JS read
with its two distinct out-of-range behaviours is `readCell` below. -/
def getCell (grid : LevelGrid) (y x : Int) : Option Cell :=
  if y < 0 ∨ x < 0 then none
  else (grid[y.toNat]?).bind fun row => row[x.toNat]?

/-- `grid[y][x]` exactly as JavaScript evaluates it, in two stages.  If the
row access `grid[y]` is out of range (negative included) it yields
`undefined`, and indexing `undefined` throws a TypeError: `none`.  If the
row exists but the column is out of range, the read harmlessly yields the
`undefined` value: `some none`.  Otherwise `some (some cell)`. -/
def readCell (grid : LevelGrid) (y x : Int) : Option (Option Cell) :=
  if y < 0 then none
  else
    match grid[y.toNat]? with
    | none => none
    | some row => if x < 0 then some none else some row[x.toNat]?

/-- Write `grid[y][x] = c` functionally.  Every write performed by `moveCat`
is at a position it has just successfully read, so the out-of-range behaviour
(here: no-op) is never exercised. -/
def setCell (grid : LevelGrid) (y x : Int) (c : Cell) : LevelGrid :=
  if 0 ≤ y ∧ 0 ≤ x then
    match grid[y.toNat]? with
    | some row => grid.set y.toNat (row.set x.toNat c)
    | none => grid
  else grid

/-- `moveCat(grid, y, x)`: move the cat by the unit vector `(y, x)`,
pushing a single bag of food when possible; blocked moves return the grid
unchanged.  `none` models every thrown exception: `getCatLocation` on a
catless grid, a `readCell` row access out of range (the JS TypeError on
`undefined[x]`), and `removeCat` / `addCat` on an incompatible value (a
cell read whose column overflowed is the harmless `undefined`, which the
equality tests simply fail against, giving the blocked-move fall-through). -/
def moveCat (grid : LevelGrid) (y x : Int) : Option LevelGrid :=
  match getCatLocation grid with
  | none => none
  | some (catY, catX) =>
    match readCell grid catY catX with
    | none => none
    | some currentCell =>
      let moveToY : Int := (catY : Int) + y
      let moveToX : Int := (catX : Int) + x
      match readCell grid moveToY moveToX with
      | none => none
      | some moveToCell =>
        if moveToCell = some Cell.empty ∨ moveToCell = some Cell.bowl then
          match currentCell.bind removeCat, moveToCell.bind addCat with
          | some rc, some ac =>
            some (setCell (setCell grid catY catX rc) moveToY moveToX ac)
          | _, _ => none
        else if moveToCell = some Cell.food ∨ moveToCell = some Cell.fullBowl then
          let newFoodY : Int := moveToY + y
          let newFoodX : Int := moveToX + x
          match readCell grid newFoodY newFoodX with
          | none => none
          | some newFoodCell =>
            if newFoodCell = some Cell.empty ∨ newFoodCell = some Cell.bowl then
              match currentCell.bind removeCat,
                  (if moveToCell = some Cell.fullBowl then addCat Cell.bowl
                   else addCat Cell.empty) with
              | some rc, some ac =>
                some (setCell
                  (setCell (setCell grid catY catX rc) moveToY moveToX ac)
                  newFoodY newFoodX
                  (if newFoodCell = some Cell.empty then Cell.food
                   else Cell.fullBowl))
              | _, _ => none
            else some grid
        else some grid

/-- One visited-set / queue update of the solver's `for (const neighbor of
neighbors)` body: skip a neighbor whose key is already visited, otherwise
mark it visited and enqueue it at distance `currentMoves + 1`. -/
def bfsInsert (acc : List String × List (LevelGrid × Nat)) (currentMoves : Nat)
    (neighbor : LevelGrid) : List String × List (LevelGrid × Nat) :=
  let neighborStr := makeGridString neighbor
  if neighborStr ∈ acc.1 then acc
  else (neighborStr :: acc.1, acc.2 ++ [(neighbor, currentMoves + 1)])

/-- The whole neighbor loop of one `solve` iteration. -/
def bfsExpand (acc : List String × List (LevelGrid × Nat)) (currentMoves : Nat)
    (neighbors : List LevelGrid) : List String × List (LevelGrid × Nat) :=
  neighbors.foldl (fun a n => bfsInsert a currentMoves n) acc

/-- The `while (queue.length > 0)` loop of `solve`, fuelled.  Results:
`some (some d)` – returned `d` (solved); `some none` – returned `null`
(unsolvable); `none` – fuel exhausted or an exception from `moveCat`. -/
def solveLoop : Nat → List String → List (LevelGrid × Nat) → Option (Option Nat)
  | 0, _, _ => none
  | _ + 1, _, [] => some none
  | fuel + 1, visited, (currentGrid, currentMoves) :: rest =>
    if getEmptyBowlCount currentGrid = 0 then some (some currentMoves)
    else
      match moveCat currentGrid (-1) 0, moveCat currentGrid 1 0,
          moveCat currentGrid 0 (-1), moveCat currentGrid 0 1 with
      | some n1, some n2, some n3, some n4 =>
        let vq := bfsExpand (visited, rest) currentMoves [n1, n2, n3, n4]
        solveLoop fuel vq.1 vq.2
      | _, _, _, _ => none

/-- Total number of cells of the grid (over all rows). -/
def cellCount (grid : LevelGrid) : Nat := (grid.map List.length).sum

/-- `solve(grid)`: breadth-first search from `grid`.  The fuel
`7 ^ cellCount grid + 1` strictly dominates the number of loop iterations
(each iteration permanently retires one of at most `7 ^ cellCount grid`
canonical keys), so it never runs out; the JS loop is unfuelled. -/
def solve (grid : LevelGrid) : Option (Option Nat) :=
  solveLoop (7 ^ cellCount grid + 1) [makeGridString grid] [(grid, 0)]

/-- The four move directions `(y, x)` used by the solver. -/
def dirs : List (Int × Int) := [(-1, 0), (1, 0), (0, -1), (0, 1)]

/-- `ReachN start n g`: from `start`, some sequence of `n` `moveCat`
applications in the four directions ends at `g`. -/
inductive ReachN : LevelGrid → Nat → LevelGrid → Prop where
  | zero (g : LevelGrid) : ReachN g 0 g
  | succ {s g g' : LevelGrid} {n : Nat} {y x : Int} :
      ReachN s n g → (y, x) ∈ dirs → moveCat g y x = some g' → ReachN s (n + 1) g'

/-- The progress labels of `utils.ts`. -/
inductive Progress where
  | perfect
  | great
  | okay
  | doom
deriving DecidableEq, Repr

/-- `GREAT_THRESHOLD`: moves beyond the minimum at which we're no longer good. -/
def GREAT_THRESHOLD : Nat := 8

/-- `computeProgress(minMoves, moves, minMovesRemaining)` from `utils.ts`. -/
def computeProgress (minMoves moves : Nat) (minMovesRemaining : Option Nat) :
    Progress :=
  match minMovesRemaining with
  | none => .doom
  | some r =>
    let bestTotalMoves := moves + r
    if bestTotalMoves = minMoves then .perfect
    else if bestTotalMoves ≤ minMoves + GREAT_THRESHOLD then .great
    else .okay

/-! ## Counting cells -/

/-- Does the cell hold the cat (`CAT` or `CAT_BOWL`)? -/
def isCatCell : Cell → Bool
  | .cat => true
  | .catBowl => true
  | _ => false

/-- Does the cell hold food (`FOOD` or `FULL_BOWL`)? -/
def isFoodCell : Cell → Bool
  | .food => true
  | .fullBowl => true
  | _ => false

/-- Is the cell a bowl/target cell (`BOWL`, `FULL_BOWL` or `CAT_BOWL`)? -/
def isTargetCell : Cell → Bool
  | .bowl => true
  | .fullBowl => true
  | .catBowl => true
  | _ => false

/-- Is the cell an unfilled bowl (`BOWL` or `CAT_BOWL`)? -/
def isEmptyBowlCell : Cell → Bool
  | .bowl => true
  | .catBowl => true
  | _ => false

/-- Number of cells of the grid satisfying `p`. -/
def countCells (p : Cell → Bool) (grid : LevelGrid) : Nat :=
  (grid.map fun row => row.countP p).sum

/-- Number of cat cells of the grid. -/
def catCount (grid : LevelGrid) : Nat := countCells isCatCell grid

/-- Number of food cells of the grid. -/
def foodCount (grid : LevelGrid) : Nat := countCells isFoodCell grid

/-- Number of bowl/target cells of the grid. -/
def targetCount (grid : LevelGrid) : Nat := countCells isTargetCell grid

theorem getEmptyBowlCount_eq_countCells (grid : LevelGrid) :
    getEmptyBowlCount grid = countCells isEmptyBowlCell grid := by
  suffices h : ∀ (g : LevelGrid) (acc : Nat),
      g.foldl
        (fun acc row => acc + (row.filter fun c => c = Cell.bowl ∨ c = Cell.catBowl).length)
        acc = acc + countCells isEmptyBowlCell g by
    simpa [getEmptyBowlCount] using h grid 0
  intro g
  induction g with
  | nil => intro acc; simp [countCells]
  | cons row g ih =>
    intro acc
    have hrow : (row.filter fun c => c = Cell.bowl ∨ c = Cell.catBowl).length
        = row.countP isEmptyBowlCell := by
      rw [← List.countP_eq_length_filter]
      exact List.countP_congr (fun c _ => by cases c <;> simp [isEmptyBowlCell])
    simp only [List.foldl_cons, ih, countCells, List.map_cons, List.sum_cons, hrow]
    omega

/-! ## `getCell` / `setCell` lemmas -/

theorem getCell_natCast (grid : LevelGrid) (y x : Nat) :
    getCell grid (y : Int) (x : Int) = grid[y]?.bind fun row => row[x]? := by
  simp [getCell]

theorem getCell_eq_some (grid : LevelGrid) {y x : Int} {c : Cell}
    (h : getCell grid y x = some c) :
    0 ≤ y ∧ 0 ≤ x ∧ ∃ row, grid[y.toNat]? = some row ∧ row[x.toNat]? = some c := by
  by_cases hneg : y < 0 ∨ x < 0
  · simp [getCell, hneg] at h
  · push_neg at hneg
    refine ⟨hneg.1, hneg.2, ?_⟩
    simp only [getCell, if_neg (by omega : ¬(y < 0 ∨ x < 0))] at h
    exact Option.bind_eq_some.mp h

theorem setCell_of_neg {grid : LevelGrid} {y x : Int} {c : Cell}
    (h : y < 0 ∨ x < 0) : setCell grid y x c = grid := by
  unfold setCell
  rw [if_neg (by omega)]

theorem setCell_of_none {grid : LevelGrid} {y x : Int} {c : Cell}
    (h : grid[y.toNat]? = none) : setCell grid y x c = grid := by
  unfold setCell
  split
  · rw [h]
  · rfl

theorem setCell_pos {grid : LevelGrid} {y x : Int} {row : List Cell}
    (hy : 0 ≤ y) (hx : 0 ≤ x) (hrow : grid[y.toNat]? = some row) (c : Cell) :
    setCell grid y x c = grid.set y.toNat (row.set x.toNat c) := by
  unfold setCell
  rw [if_pos (⟨hy, hx⟩ : 0 ≤ y ∧ 0 ≤ x), hrow]

theorem getCell_nonneg (grid : LevelGrid) {y x : Int} (hy : 0 ≤ y) (hx : 0 ≤ x) :
    getCell grid y x = grid[y.toNat]?.bind fun row => row[x.toNat]? := by
  unfold getCell
  rw [if_neg (by omega)]

theorem getCell_of_readCell {grid : LevelGrid} {y x : Int} {c : Cell}
    (h : readCell grid y x = some (some c)) : getCell grid y x = some c := by
  unfold readCell at h
  by_cases hy : y < 0
  · rw [if_pos hy] at h
    cases h
  · rw [if_neg hy] at h
    split at h
    · cases h
    next row hrow =>
      by_cases hx : x < 0
      · rw [if_pos hx] at h
        injection h with h
        cases h
      · rw [if_neg hx] at h
        injection h with h
        rw [getCell_nonneg _ (by omega) (by omega), hrow]
        exact h

theorem readCell_of_getCell {grid : LevelGrid} {y x : Int} {c : Cell}
    (h : getCell grid y x = some c) : readCell grid y x = some (some c) := by
  obtain ⟨hy, hx, row, hrow, hcell⟩ := getCell_eq_some grid h
  unfold readCell
  rw [if_neg (by omega), hrow]
  show (if x < 0 then some none else some row[x.toNat]?) = some (some c)
  rw [if_neg (by omega), hcell]

theorem readCell_isSome_of {grid : LevelGrid} {y : Int} (hy : 0 ≤ y)
    (hlen : y.toNat < grid.length) (x : Int) :
    ∃ oc, readCell grid y x = some oc := by
  obtain ⟨row, hrow⟩ : ∃ row, grid[y.toNat]? = some row :=
    ⟨grid[y.toNat], List.getElem?_eq_getElem hlen⟩
  unfold readCell
  rw [if_neg (by omega), hrow]
  show ∃ oc, (if x < 0 then some none else some row[x.toNat]?) = some oc
  by_cases hx : x < 0
  · rw [if_pos hx]
    exact ⟨none, rfl⟩
  · rw [if_neg hx]
    exact ⟨_, rfl⟩

theorem getCell_setCell_self {grid : LevelGrid} {y x : Int} {c₀ : Cell}
    (h : getCell grid y x = some c₀) (c : Cell) :
    getCell (setCell grid y x c) y x = some c := by
  obtain ⟨hy, hx, row, hrow, hcell⟩ := getCell_eq_some grid h
  have hylt : y.toNat < grid.length := (List.getElem?_eq_some_iff.mp hrow).1
  have hxlt : x.toNat < row.length := (List.getElem?_eq_some_iff.mp hcell).1
  rw [setCell_pos hy hx hrow c, getCell_nonneg _ hy hx,
    List.getElem?_set_self hylt]
  show (row.set x.toNat c)[x.toNat]? = some c
  exact List.getElem?_set_self hxlt

theorem getCell_setCell_ne {grid : LevelGrid} {y x y' x' : Int} (c : Cell)
    (h : ¬(y = y' ∧ x = x')) :
    getCell (setCell grid y x c) y' x' = getCell grid y' x' := by
  by_cases hneg : y < 0 ∨ x < 0
  · rw [setCell_of_neg hneg]
  · push_neg at hneg
    match hrow : grid[y.toNat]? with
    | none => rw [setCell_of_none hrow]
    | some row =>
      rw [setCell_pos hneg.1 hneg.2 hrow c]
      by_cases hneg' : y' < 0 ∨ x' < 0
      · simp [getCell, hneg']
      · push_neg at hneg'
        rw [getCell_nonneg _ hneg'.1 hneg'.2, getCell_nonneg _ hneg'.1 hneg'.2]
        by_cases hyy : y.toNat = y'.toNat
        · have hy : y = y' := by omega
          have hxx : x.toNat ≠ x'.toNat := by
            intro hc
            exact h ⟨hy, by omega⟩
          rw [← hyy, List.getElem?_set_self
            ((List.getElem?_eq_some_iff.mp hrow).1), hrow]
          show (row.set x.toNat c)[x'.toNat]? = row[x'.toNat]?
          exact List.getElem?_set_ne hxx
        · rw [List.getElem?_set_ne hyy]

theorem set_getElem?_self {α : Type} :
    ∀ (l : List α) (i : Nat) (a : α), l[i]? = some a → l.set i a = l := by
  intro l
  induction l with
  | nil => intro i a h; simp at h
  | cons b t ih =>
    intro i a h
    match i with
    | 0 =>
      simp only [List.getElem?_cons_zero, Option.some.injEq] at h
      rw [List.set_cons_zero, h]
    | i + 1 =>
      simp only [List.getElem?_cons_succ] at h
      rw [List.set_cons_succ, ih i a h]

theorem shape_setCell (grid : LevelGrid) (y x : Int) (c : Cell) :
    (setCell grid y x c).map List.length = grid.map List.length := by
  by_cases hneg : y < 0 ∨ x < 0
  · rw [setCell_of_neg hneg]
  · push_neg at hneg
    match hrow : grid[y.toNat]? with
    | none => rw [setCell_of_none hrow]
    | some row =>
      rw [setCell_pos hneg.1 hneg.2 hrow c, List.map_set, List.length_set]
      apply set_getElem?_self
      rw [List.getElem?_map, hrow]
      rfl

/-- Additive form of `countP` under `List.set`. -/
theorem countP_set_add {α : Type} (p : α → Bool) :
    ∀ (l : List α) (i : Nat) (a c : α), l[i]? = some c →
      (l.set i a).countP p + (if p c then 1 else 0)
        = l.countP p + (if p a then 1 else 0) := by
  intro l
  induction l with
  | nil => intro i a c h; simp at h
  | cons b t ih =>
    intro i a c h
    match i with
    | 0 =>
      simp only [List.getElem?_cons_zero, Option.some.injEq] at h
      subst h
      simp only [List.set_cons_zero, List.countP_cons]
      omega
    | i + 1 =>
      simp only [List.getElem?_cons_succ] at h
      simp only [List.set_cons_succ, List.countP_cons]
      have := ih i a c h
      omega

/-- Additive form of `List.sum` under `List.set`. -/
theorem sum_set_add :
    ∀ (l : List Nat) (i : Nat) (a b : Nat), l[i]? = some b →
      (l.set i a).sum + b = l.sum + a := by
  intro l
  induction l with
  | nil => intro i a b h; simp at h
  | cons x t ih =>
    intro i a b h
    match i with
    | 0 =>
      simp only [List.getElem?_cons_zero, Option.some.injEq] at h
      subst h
      simp only [List.set_cons_zero, List.sum_cons]
      omega
    | i + 1 =>
      simp only [List.getElem?_cons_succ] at h
      simp only [List.set_cons_succ, List.sum_cons]
      have := ih i a b h
      omega

/-- Additive form of `countCells` under `setCell`: one in-bounds write swaps
the written position's contribution. -/
theorem countCells_setCell (p : Cell → Bool) {grid : LevelGrid} {y x : Int}
    {c₀ : Cell} (h : getCell grid y x = some c₀) (c : Cell) :
    countCells p (setCell grid y x c) + (if p c₀ then 1 else 0)
      = countCells p grid + (if p c then 1 else 0) := by
  obtain ⟨hy, hx, row, hrow, hcell⟩ := getCell_eq_some grid h
  rw [setCell_pos hy hx hrow c]
  simp only [countCells, List.map_set]
  have h1 : (grid.map fun r => r.countP p)[y.toNat]? = some (row.countP p) := by
    rw [List.getElem?_map, hrow]; rfl
  have h2 := countP_set_add p row x.toNat c c₀ hcell
  have h3 := sum_set_add (grid.map fun r => r.countP p) y.toNat
    ((row.set x.toNat c).countP p) (row.countP p) h1
  omega

/-! ## `getCatLocation`, `removeCat`, `addCat` -/

theorem removeCat_eq_some {c rc : Cell} (h : removeCat c = some rc) :
    (c = Cell.cat ∧ rc = Cell.empty) ∨ (c = Cell.catBowl ∧ rc = Cell.bowl) := by
  cases c <;> simp_all [removeCat]

theorem addCat_eq_some {c ac : Cell} (h : addCat c = some ac) :
    (c = Cell.empty ∧ ac = Cell.cat) ∨ (c = Cell.bowl ∧ ac = Cell.catBowl) := by
  cases c <;> simp_all [addCat]

theorem removeCat_isSome {c : Cell} (h : isCatCell c = true) :
    ∃ rc, removeCat c = some rc := by
  cases c <;> simp_all [isCatCell, removeCat]

theorem getCatLocation_spec {grid : LevelGrid} {y x : Nat}
    (h : getCatLocation grid = some (y, x)) :
    ∃ c, (grid[y]?.bind fun row => row[x]?) = some c ∧ isCatCell c = true := by
  unfold getCatLocation at h
  obtain ⟨x₀, _, hinner⟩ := List.exists_of_findSome?_eq_some h
  obtain ⟨y₀, _, hpay⟩ := List.exists_of_findSome?_eq_some hinner
  split at hpay
  next c heq =>
    split at hpay
    next hcat =>
      obtain ⟨hy, hx⟩ := Prod.mk.injEq .. ▸ Option.some.injEq .. ▸ hpay
      refine ⟨c, ?_, ?_⟩
      · rw [← hy, ← hx]; exact heq
      · rcases hcat with h' | h' <;> simp [h', isCatCell]
    next => exact absurd hpay (by simp)
  next => exact absurd hpay (by simp)

/-- The width used by the column scan of `getCatLocation` (`grid[0].length`). -/
def gridWidth (grid : LevelGrid) : Nat := (grid.head?.getD []).length

/-- Rectangularity: every row has the width of the first row (assumed of all
level grids on entry; checked at load time, outside the core). -/
def Rectangular (grid : LevelGrid) : Prop :=
  ∀ row ∈ grid, row.length = gridWidth grid

theorem getCatLocation_isSome {grid : LevelGrid} (hrect : Rectangular grid)
    (h : ∃ (y x : Nat) (c : Cell),
      (grid[y]?.bind fun row => row[x]?) = some c ∧ isCatCell c = true) :
    ∃ p, getCatLocation grid = some p := by
  obtain ⟨y, x, c, hbind, hcat⟩ := h
  obtain ⟨row, hrow, hcell⟩ := Option.bind_eq_some.mp hbind
  match hloc : getCatLocation grid with
  | some p => exact ⟨p, rfl⟩
  | none =>
    exfalso
    unfold getCatLocation at hloc
    rw [List.findSome?_eq_none_iff] at hloc
    have hxmem : x ∈ List.range (grid.head?.getD []).length := by
      rw [List.mem_range]
      have hxlt : x < row.length := (List.getElem?_eq_some_iff.mp hcell).1
      have := hrect row (List.getElem?_mem hrow)
      rw [this] at hxlt
      exact hxlt
    have hinner := hloc x hxmem
    rw [List.findSome?_eq_none_iff] at hinner
    have hymem : y ∈ List.range grid.length := by
      rw [List.mem_range]
      exact (List.getElem?_eq_some_iff.mp hrow).1
    have hpay := hinner y hymem
    rw [hbind] at hpay
    have hcat' : c = Cell.cat ∨ c = Cell.catBowl := by
      cases c <;> simp_all [isCatCell]
    simp only [if_pos hcat'] at hpay
    exact absurd hpay (by simp)

/-! ## Case analysis of `moveCat` -/

/-- Every successful `moveCat` either returns the grid unchanged, relocates
the cat onto an `EMPTY`/`BOWL` cell, or pushes one bag of food. -/
theorem moveCat_cases {grid g' : LevelGrid} {y x : Int}
    (h : moveCat grid y x = some g') :
    g' = grid ∨
    (∃ catY catX cc rc mtc ac,
      getCatLocation grid = some (catY, catX) ∧
      getCell grid (catY : Int) (catX : Int) = some cc ∧ removeCat cc = some rc ∧
      getCell grid ((catY : Int) + y) ((catX : Int) + x) = some mtc ∧
      addCat mtc = some ac ∧
      g' = setCell (setCell grid (catY : Int) (catX : Int) rc)
            ((catY : Int) + y) ((catX : Int) + x) ac) ∨
    (∃ catY catX cc rc mtc fc,
      getCatLocation grid = some (catY, catX) ∧
      getCell grid (catY : Int) (catX : Int) = some cc ∧ removeCat cc = some rc ∧
      getCell grid ((catY : Int) + y) ((catX : Int) + x) = some mtc ∧
      (mtc = Cell.food ∨ mtc = Cell.fullBowl) ∧
      getCell grid ((catY : Int) + y + y) ((catX : Int) + x + x) = some fc ∧
      (fc = Cell.empty ∨ fc = Cell.bowl) ∧
      g' = setCell (setCell (setCell grid (catY : Int) (catX : Int) rc)
            ((catY : Int) + y) ((catX : Int) + x)
            (if mtc = Cell.fullBowl then Cell.catBowl else Cell.cat))
            ((catY : Int) + y + y) ((catX : Int) + x + x)
            (if fc = Cell.empty then Cell.food else Cell.fullBowl)) := by
  unfold moveCat at h
  split at h
  next => exact absurd h (by simp)
  next catY catX hloc =>
    split at h
    next => exact absurd h (by simp)
    next currentCell hcur =>
      simp only [] at h
      split at h
      next => exact absurd h (by simp)
      next moveToCell hmove0 =>
        split at h
        next hmove =>
          split at h
          next rc ac hrc hac =>
            obtain ⟨cc, hcceq, hrcv⟩ := Option.bind_eq_some.mp hrc
            obtain ⟨mtc, hmtceq, hacv⟩ := Option.bind_eq_some.mp hac
            subst hcceq
            subst hmtceq
            refine Or.inr (Or.inl ⟨catY, catX, cc, rc, mtc, ac, hloc,
              getCell_of_readCell hcur, hrcv,
              getCell_of_readCell hmove0, hacv, ?_⟩)
            exact (Option.some.injEq .. ▸ h).symm
          next => exact absurd h (by simp)
        next hnotmove =>
          split at h
          next hfood =>
            split at h
            next => exact absurd h (by simp)
            next newFoodCell hland0 =>
              split at h
              next hland =>
                split at h
                next rc ac hrc hacif =>
                  obtain ⟨cc, hcceq, hrcv⟩ := Option.bind_eq_some.mp hrc
                  subst hcceq
                  obtain ⟨mtc, hmtceq, hfoodv⟩ :
                      ∃ mtc, moveToCell = some mtc ∧
                        (mtc = Cell.food ∨ mtc = Cell.fullBowl) := by
                    rcases hfood with h' | h'
                    · exact ⟨Cell.food, h', Or.inl rfl⟩
                    · exact ⟨Cell.fullBowl, h', Or.inr rfl⟩
                  subst hmtceq
                  obtain ⟨fc, hfceq, hlandv⟩ :
                      ∃ fc, newFoodCell = some fc ∧
                        (fc = Cell.empty ∨ fc = Cell.bowl) := by
                    rcases hland with h' | h'
                    · exact ⟨Cell.empty, h', Or.inl rfl⟩
                    · exact ⟨Cell.bowl, h', Or.inr rfl⟩
                  subst hfceq
                  refine Or.inr (Or.inr ⟨catY, catX, cc, rc, mtc, fc, hloc,
                    getCell_of_readCell hcur, hrcv,
                    getCell_of_readCell hmove0, hfoodv,
                    getCell_of_readCell hland0, hlandv, ?_⟩)
                  have hacval : ac = if mtc = Cell.fullBowl then Cell.catBowl
                      else Cell.cat := by
                    by_cases hmb : mtc = Cell.fullBowl
                    · rw [if_pos (by rw [hmb])] at hacif
                      rw [if_pos hmb]
                      simpa [addCat] using hacif.symm
                    · rw [if_neg
                        (fun hcontra => hmb (Option.some.injEq .. ▸ hcontra))] at hacif
                      rw [if_neg hmb]
                      simpa [addCat] using hacif.symm
                  have hwr : (if (some fc : Option Cell) = some Cell.empty
                      then Cell.food else Cell.fullBowl)
                      = (if fc = Cell.empty then Cell.food else Cell.fullBowl) := by
                    by_cases hfe : fc = Cell.empty
                    · rw [if_pos (by rw [hfe]), if_pos hfe]
                    · rw [if_neg
                        (fun hcontra => hfe (Option.some.injEq .. ▸ hcontra)),
                        if_neg hfe]
                  rw [← hacval, ← hwr]
                  exact (Option.some.injEq .. ▸ h).symm
                next => exact absurd h (by simp)
              next => exact Or.inl (Option.some.injEq .. ▸ h).symm
          next => exact Or.inl (Option.some.injEq .. ▸ h).symm

/-- Walls line the first and last rows of the grid (the part of the border
that keeps the cat and its food away from row indices whose JS read throws). -/
def EdgeWall (grid : LevelGrid) : Prop :=
  (∀ c ∈ grid.head?.getD [], c = Cell.wall) ∧
  (∀ c ∈ grid.getLast?.getD [], c = Cell.wall)

/-- On an edge-walled grid, a non-wall cell never sits on the first or the
last row. -/
theorem cell_row_not_edge {grid : LevelGrid} (hedge : EdgeWall grid)
    {yN xN : Nat} {row : List Cell} {c : Cell}
    (hrow : grid[yN]? = some row) (hcell : row[xN]? = some c)
    (hc : c ≠ Cell.wall) : 1 ≤ yN ∧ yN + 1 < grid.length := by
  have hylt : yN < grid.length := (List.getElem?_eq_some_iff.mp hrow).1
  have hcmem : c ∈ row := List.getElem?_mem hcell
  have h0 : yN ≠ 0 := by
    intro h0
    subst h0
    have hhead : grid.head? = some row := by
      rw [List.head?_eq_getElem?]
      exact hrow
    have hrow' : row = grid.head?.getD [] := by
      rw [hhead]
      rfl
    exact hc (hedge.1 c (hrow' ▸ hcmem))
  have hlast : yN ≠ grid.length - 1 := by
    intro hl
    have hgl : grid.getLast? = some row := by
      rw [List.getLast?_eq_getElem?, ← hl]
      exact hrow
    have hrow' : row = grid.getLast?.getD [] := by
      rw [hgl]
      rfl
    exact hc (hedge.2 c (hrow' ▸ hcmem))
  omega

/-- A write at a cell whose current value is not a wall leaves the wall rows
untouched: on an edge-walled grid such a cell is strictly between them. -/
theorem edgeWall_setCell {grid : LevelGrid} (hedge : EdgeWall grid)
    {y x : Int} {c₀ : Cell} (h : getCell grid y x = some c₀)
    (hc₀ : c₀ ≠ Cell.wall) (c : Cell) : EdgeWall (setCell grid y x c) := by
  obtain ⟨hy, hx, row, hrow, hcell⟩ := getCell_eq_some grid h
  obtain ⟨h1, h2⟩ := cell_row_not_edge hedge hrow hcell hc₀
  rw [setCell_pos hy hx hrow c]
  constructor
  · have hh : (grid.set y.toNat (row.set x.toNat c)).head? = grid.head? := by
      rw [List.head?_eq_getElem?, List.head?_eq_getElem?,
        List.getElem?_set_ne (by omega)]
    rw [hh]
    exact hedge.1
  · have hh : (grid.set y.toNat (row.set x.toNat c)).getLast?
        = grid.getLast? := by
      rw [List.getLast?_eq_getElem?, List.getLast?_eq_getElem?, List.length_set,
        List.getElem?_set_ne (by omega)]
    rw [hh]
    exact hedge.2

/-- Every cell `moveCat` writes held a non-wall value, so a successful move
preserves the edge walls. -/
theorem edgeWall_moveCat {grid g' : LevelGrid} {y x : Int}
    (hedge : EdgeWall grid) (h : moveCat grid y x = some g') :
    EdgeWall g' := by
  rcases moveCat_cases h with heq |
      ⟨catY, catX, cc, rc, mtc, ac, _, e2, e3, e4, e5, e8⟩ |
      ⟨catY, catX, cc, rc, mtc, fc, _, e2, e3, e4, e5, e6, e7, e8⟩
  · rw [heq]
    exact hedge
  · have hccw : cc ≠ Cell.wall := by
      rcases removeCat_eq_some e3 with ⟨hc, _⟩ | ⟨hc, _⟩ <;> subst hc <;> decide
    have hmw : mtc ≠ Cell.wall := by
      rcases addCat_eq_some e5 with ⟨hm, _⟩ | ⟨hm, _⟩ <;> subst hm <;> decide
    have hne12 : ¬((catY : Int) = (catY : Int) + y ∧
        (catX : Int) = (catX : Int) + x) := by
      intro ⟨u1, u2⟩
      rw [← u1, ← u2, e2] at e4
      injection e4 with hcm
      rcases removeCat_eq_some e3 with ⟨hc, _⟩ | ⟨hc, _⟩ <;>
        rcases addCat_eq_some e5 with ⟨hm, _⟩ | ⟨hm, _⟩ <;>
        subst hc <;> subst hm <;> cases hcm
    have h1 := edgeWall_setCell hedge e2 hccw rc
    have h2' : getCell (setCell grid (catY : Int) (catX : Int) rc)
        ((catY : Int) + y) ((catX : Int) + x) = some mtc := by
      rw [getCell_setCell_ne _ hne12]
      exact e4
    rw [e8]
    exact edgeWall_setCell h1 h2' hmw ac
  · have hccw : cc ≠ Cell.wall := by
      rcases removeCat_eq_some e3 with ⟨hc, _⟩ | ⟨hc, _⟩ <;> subst hc <;> decide
    have hmw : mtc ≠ Cell.wall := by
      rcases e5 with hm | hm <;> subst hm <;> decide
    have hfw : fc ≠ Cell.wall := by
      rcases e7 with hf | hf <;> subst hf <;> decide
    have hne12 : ¬((catY : Int) = (catY : Int) + y ∧
        (catX : Int) = (catX : Int) + x) := by
      intro ⟨u1, u2⟩
      rw [← u1, ← u2, e2] at e4
      injection e4 with hcm
      rcases removeCat_eq_some e3 with ⟨hc, _⟩ | ⟨hc, _⟩ <;>
        rcases e5 with hm | hm <;> subst hc <;> subst hm <;> cases hcm
    have hne13 : ¬((catY : Int) = (catY : Int) + y + y ∧
        (catX : Int) = (catX : Int) + x + x) := by
      intro ⟨u1, u2⟩
      rw [← u1, ← u2, e2] at e6
      injection e6 with hcm
      rcases removeCat_eq_some e3 with ⟨hc, _⟩ | ⟨hc, _⟩ <;>
        rcases e7 with hf | hf <;> subst hc <;> subst hf <;> cases hcm
    have hne23 : ¬((catY : Int) + y = (catY : Int) + y + y ∧
        (catX : Int) + x = (catX : Int) + x + x) := by
      intro ⟨u1, u2⟩
      rw [← u1, ← u2, e4] at e6
      injection e6 with hcm
      rcases e5 with hm | hm <;> rcases e7 with hf | hf <;>
        subst hm <;> subst hf <;> cases hcm
    have h1 := edgeWall_setCell hedge e2 hccw rc
    have h2' : getCell (setCell grid (catY : Int) (catX : Int) rc)
        ((catY : Int) + y) ((catX : Int) + x) = some mtc := by
      rw [getCell_setCell_ne _ hne12]
      exact e4
    have h2 := edgeWall_setCell h1 h2' hmw
      (if mtc = Cell.fullBowl then Cell.catBowl else Cell.cat)
    have h3' : getCell (setCell (setCell grid (catY : Int) (catX : Int) rc)
        ((catY : Int) + y) ((catX : Int) + x)
        (if mtc = Cell.fullBowl then Cell.catBowl else Cell.cat))
        ((catY : Int) + y + y) ((catX : Int) + x + x) = some fc := by
      rw [getCell_setCell_ne _ hne23, getCell_setCell_ne _ hne13]
      exact e6
    rw [e8]
    exact edgeWall_setCell h2 h3' hfw
      (if fc = Cell.empty then Cell.food else Cell.fullBowl)

/-- `moveCat` never throws on an edge-walled grid in which the scan finds a
cat: the cat and any pushed food sit strictly between the wall rows, so every
row read of the move is in range, and the column reads cannot throw. -/
theorem moveCat_isSome {grid : LevelGrid} (hedge : EdgeWall grid)
    {catY catX : Nat} (hloc : getCatLocation grid = some (catY, catX))
    (y x : Int) (hd : (y, x) ∈ dirs) :
    ∃ g', moveCat grid y x = some g' := by
  obtain ⟨cc, hbind, hcat⟩ := getCatLocation_spec hloc
  obtain ⟨row, hrow, hcell⟩ := Option.bind_eq_some.mp hbind
  have hcc2 : cc = Cell.cat ∨ cc = Cell.catBowl := by
    cases cc
    case cat => exact Or.inl rfl
    case catBowl => exact Or.inr rfl
    all_goals exact absurd hcat (by decide)
  have hccne : cc ≠ Cell.wall := by
    rcases hcc2 with h' | h' <;> subst h' <;> decide
  have hedgecat := cell_row_not_edge hedge hrow hcell hccne
  have hy1 : -1 ≤ y ∧ y ≤ 1 := by
    simp only [dirs, List.mem_cons, List.not_mem_nil, or_false] at hd
    rcases hd with h' | h' | h' | h' <;>
      (rw [Prod.mk.injEq] at h'; obtain ⟨h1, h2⟩ := h'; subst h1; subst h2) <;>
      constructor <;> decide
  have hgc : getCell grid (catY : Int) (catX : Int) = some cc := by
    rw [getCell_natCast]
    exact hbind
  have hrc1 : readCell grid (catY : Int) (catX : Int) = some (some cc) :=
    readCell_of_getCell hgc
  obtain ⟨rc, hrcv⟩ := removeCat_isSome hcat
  have hmrange : 0 ≤ (catY : Int) + y ∧ ((catY : Int) + y).toNat < grid.length := by
    obtain ⟨e1, e2⟩ := hedgecat
    omega
  obtain ⟨moveToCell, hmread⟩ :=
    readCell_isSome_of hmrange.1 hmrange.2 ((catX : Int) + x)
  unfold moveCat
  split
  next heq => rw [hloc] at heq; cases heq
  next cy cx heq =>
    rw [hloc] at heq
    obtain ⟨hyy, hxx⟩ : catY = cy ∧ catX = cx := by
      injection heq with heq'
      exact ⟨congrArg Prod.fst heq', congrArg Prod.snd heq'⟩
    subst hyy
    subst hxx
    split
    next heq2 => rw [hrc1] at heq2; cases heq2
    next currentCell heq2 =>
      rw [hrc1] at heq2
      injection heq2 with heq2'
      subst heq2'
      simp only []
      split
      next heq3 => rw [hmread] at heq3; cases heq3
      next moveToCell' heq3 =>
        rw [hmread] at heq3
        injection heq3 with heq3'
        subst heq3'
        split
        next hmove =>
          have hacv : ∃ ac, moveToCell.bind addCat = some ac := by
            rcases hmove with h' | h' <;> rw [h'] <;> exact ⟨_, rfl⟩
          obtain ⟨ac, hacv⟩ := hacv
          rw [show (some cc).bind removeCat = removeCat cc from rfl, hrcv, hacv]
          exact ⟨_, rfl⟩
        next hnotmove =>
          split
          next hfood =>
            obtain ⟨mtc, hmtceq, hfoodv⟩ :
                ∃ mtc, moveToCell = some mtc ∧
                  (mtc = Cell.food ∨ mtc = Cell.fullBowl) := by
              rcases hfood with h' | h'
              · exact ⟨Cell.food, h', Or.inl rfl⟩
              · exact ⟨Cell.fullBowl, h', Or.inr rfl⟩
            subst hmtceq
            have hgcm : getCell grid ((catY : Int) + y) ((catX : Int) + x)
                = some mtc := getCell_of_readCell hmread
            obtain ⟨hmy, hmx, mrow, hmrow, hmcell⟩ := getCell_eq_some grid hgcm
            have hmne : mtc ≠ Cell.wall := by
              rcases hfoodv with h' | h' <;> subst h' <;> decide
            have hedgem := cell_row_not_edge hedge hmrow hmcell hmne
            have hlrange : 0 ≤ (catY : Int) + y + y ∧
                ((catY : Int) + y + y).toNat < grid.length := by
              obtain ⟨e1, e2⟩ := hedgem
              omega
            obtain ⟨newFoodCell, hlread⟩ :=
              readCell_isSome_of hlrange.1 hlrange.2 ((catX : Int) + x + x)
            split
            next heq4 => rw [hlread] at heq4; cases heq4
            next newFoodCell' heq4 =>
              split
              next hland =>
                rw [show (some cc).bind removeCat = removeCat cc from rfl, hrcv]
                by_cases hmb : (some mtc : Option Cell) = some Cell.fullBowl
                · rw [if_pos hmb]
                  exact ⟨_, rfl⟩
                · rw [if_neg hmb]
                  exact ⟨_, rfl⟩
              next => exact ⟨_, rfl⟩
          next => exact ⟨_, rfl⟩

/-! ## Conservation laws of `moveCat` -/

/-- Generic counting argument: a successful `moveCat` rewrites two or three
distinct cells; if the rewrite balances `p`, the `p`-count is preserved. -/
theorem countCells_moveCat (p : Cell → Bool) {grid g' : LevelGrid} {y x : Int}
    (h : moveCat grid y x = some g')
    (hbal2 : ∀ cc rc mtc ac, removeCat cc = some rc → addCat mtc = some ac →
      (if p cc then 1 else 0) + (if p mtc then 1 else 0)
        = (if p rc then 1 else 0) + (if p ac then 1 else 0))
    (hbal3 : ∀ cc rc mtc fc, removeCat cc = some rc →
      (mtc = Cell.food ∨ mtc = Cell.fullBowl) →
      (fc = Cell.empty ∨ fc = Cell.bowl) →
      (if p cc then 1 else 0) + (if p mtc then 1 else 0) + (if p fc then 1 else 0)
        = (if p rc then 1 else 0)
          + (if p (if mtc = Cell.fullBowl then Cell.catBowl else Cell.cat) then 1 else 0)
          + (if p (if fc = Cell.empty then Cell.food else Cell.fullBowl) then 1 else 0)) :
    countCells p g' = countCells p grid := by
  rcases moveCat_cases h with hid | hcase | hcase
  · rw [hid]
  · obtain ⟨catY, catX, cc, rc, mtc, ac, _, hcc, hrc, hmtc, hac, hg'⟩ := hcase
    have hccval := removeCat_eq_some hrc
    have hmtcval := addCat_eq_some hac
    have hne : ¬((catY : Int) = (catY : Int) + y ∧ (catX : Int) = (catX : Int) + x) := by
      intro ⟨h1, h2⟩
      rw [← h1, ← h2, hcc] at hmtc
      injection hmtc with hcm
      rcases hccval with ⟨hc, _⟩ | ⟨hc, _⟩ <;> rcases hmtcval with ⟨hm, _⟩ | ⟨hm, _⟩ <;>
        rw [hc, hm] at hcm <;> cases hcm
    have e2 : getCell (setCell grid (catY : Int) (catX : Int) rc)
        ((catY : Int) + y) ((catX : Int) + x) = some mtc := by
      rw [getCell_setCell_ne rc hne]; exact hmtc
    have k1 := countCells_setCell p hcc rc
    have k2 := countCells_setCell p e2 ac
    have hb := hbal2 cc rc mtc ac hrc hac
    rw [hg']
    omega
  · obtain ⟨catY, catX, cc, rc, mtc, fc, _, hcc, hrc, hmtc, hfood, hfc, hland, hg'⟩ := hcase
    have hccval := removeCat_eq_some hrc
    have hne12 : ¬((catY : Int) = (catY : Int) + y ∧ (catX : Int) = (catX : Int) + x) := by
      intro ⟨h1, h2⟩
      rw [← h1, ← h2, hcc] at hmtc
      injection hmtc with hcm
      rcases hccval with ⟨hc, _⟩ | ⟨hc, _⟩ <;> rcases hfood with hm | hm <;>
        rw [hc, hm] at hcm <;> cases hcm
    have hne13 : ¬((catY : Int) = (catY : Int) + y + y ∧ (catX : Int) = (catX : Int) + x + x) := by
      intro ⟨h1, h2⟩
      rw [← h1, ← h2, hcc] at hfc
      injection hfc with hcm
      rcases hccval with ⟨hc, _⟩ | ⟨hc, _⟩ <;> rcases hland with hm | hm <;>
        rw [hc, hm] at hcm <;> cases hcm
    have hne23 : ¬((catY : Int) + y = (catY : Int) + y + y ∧
        (catX : Int) + x = (catX : Int) + x + x) := by
      intro ⟨h1, h2⟩
      rw [← h1, ← h2, hmtc] at hfc
      injection hfc with hcm
      rcases hfood with hc | hc <;> rcases hland with hm | hm <;>
        rw [hc, hm] at hcm <;> cases hcm
    have e2 : getCell (setCell grid (catY : Int) (catX : Int) rc)
        ((catY : Int) + y) ((catX : Int) + x) = some mtc := by
      rw [getCell_setCell_ne rc hne12]; exact hmtc
    have e3 : getCell (setCell (setCell grid (catY : Int) (catX : Int) rc)
        ((catY : Int) + y) ((catX : Int) + x)
        (if mtc = Cell.fullBowl then Cell.catBowl else Cell.cat))
        ((catY : Int) + y + y) ((catX : Int) + x + x) = some fc := by
      rw [getCell_setCell_ne _ hne23, getCell_setCell_ne rc hne13]; exact hfc
    have k1 := countCells_setCell p hcc rc
    have k2 := countCells_setCell p e2
      (if mtc = Cell.fullBowl then Cell.catBowl else Cell.cat)
    have k3 := countCells_setCell p e3
      (if fc = Cell.empty then Cell.food else Cell.fullBowl)
    have hb := hbal3 cc rc mtc fc hrc hfood hland
    rw [hg']
    omega

theorem catCount_moveCat {grid g' : LevelGrid} {y x : Int}
    (h : moveCat grid y x = some g') : catCount g' = catCount grid :=
  countCells_moveCat isCatCell h (by decide) (by decide)

theorem foodCount_moveCat {grid g' : LevelGrid} {y x : Int}
    (h : moveCat grid y x = some g') : foodCount g' = foodCount grid :=
  countCells_moveCat isFoodCell h (by decide) (by decide)

theorem targetCount_moveCat {grid g' : LevelGrid} {y x : Int}
    (h : moveCat grid y x = some g') : targetCount g' = targetCount grid :=
  countCells_moveCat isTargetCell h (by decide) (by decide)

theorem shape_moveCat {grid g' : LevelGrid} {y x : Int}
    (h : moveCat grid y x = some g') :
    g'.map List.length = grid.map List.length := by
  rcases moveCat_cases h with hid | hcase | hcase
  · rw [hid]
  · obtain ⟨_, _, _, _, _, _, _, _, _, _, _, hg'⟩ := hcase
    rw [hg', shape_setCell, shape_setCell]
  · obtain ⟨_, _, _, _, _, _, _, _, _, _, _, _, _, hg'⟩ := hcase
    rw [hg', shape_setCell, shape_setCell, shape_setCell]

/-! ## Conservation along reachability -/

theorem ReachN_shape {start g : LevelGrid} {n : Nat} (h : ReachN start n g) :
    g.map List.length = start.map List.length := by
  induction h with
  | zero => rfl
  | succ _ _ hmv ih => rw [shape_moveCat hmv, ih]

theorem ReachN_catCount {start g : LevelGrid} {n : Nat} (h : ReachN start n g) :
    catCount g = catCount start := by
  induction h with
  | zero => rfl
  | succ _ _ hmv ih => rw [catCount_moveCat hmv, ih]

theorem ReachN_foodCount {start g : LevelGrid} {n : Nat} (h : ReachN start n g) :
    foodCount g = foodCount start := by
  induction h with
  | zero => rfl
  | succ _ _ hmv ih => rw [foodCount_moveCat hmv, ih]

theorem ReachN_edgeWall {start g : LevelGrid} {n : Nat} (h : ReachN start n g)
    (hedge : EdgeWall start) : EdgeWall g := by
  induction h with
  | zero => exact hedge
  | succ _ _ hmv ih => exact edgeWall_moveCat ih hmv

theorem ReachN_targetCount {start g : LevelGrid} {n : Nat} (h : ReachN start n g) :
    targetCount g = targetCount start := by
  induction h with
  | zero => rfl
  | succ _ _ hmv ih => rw [targetCount_moveCat hmv, ih]

theorem rectangular_congr {g g' : LevelGrid}
    (hsh : g.map List.length = g'.map List.length) :
    Rectangular g ↔ Rectangular g' := by
  have hw : ∀ h : LevelGrid, gridWidth h = ((h.map List.length).head?).getD 0 := by
    intro h
    cases h with
    | nil => rfl
    | cons r t => rfl
  constructor
  · intro hr row hmem
    have : row.length ∈ g'.map List.length := List.mem_map_of_mem _ hmem
    rw [← hsh] at this
    obtain ⟨row₀, hmem₀, hlen⟩ := List.mem_map.mp this
    rw [← hlen, hr row₀ hmem₀, hw g, hw g', hsh]
  · intro hr row hmem
    have : row.length ∈ g.map List.length := List.mem_map_of_mem _ hmem
    rw [hsh] at this
    obtain ⟨row₀, hmem₀, hlen⟩ := List.mem_map.mp this
    rw [← hlen, hr row₀ hmem₀, hw g, hw g', hsh]

theorem ReachN_rectangular {start g : LevelGrid} {n : Nat} (h : ReachN start n g)
    (hrect : Rectangular start) : Rectangular g :=
  (rectangular_congr (ReachN_shape h)).mpr hrect

/-! ## Injectivity of `makeGridString` -/

theorem toChar_injective : Function.Injective Cell.toChar := by decide

theorem toChar_ne_newline (c : Cell) : Cell.toChar c ≠ '\n' := by
  cases c <;> decide

/-- `List Char` view of the `"\n"`-joined row encoding. -/
def joinNl : List (List Char) → List Char
  | [] => []
  | a :: as => a ++ (as.map fun r => '\n' :: r).flatten

theorem joinNl_cons_cons (a b : List Char) (t : List (List Char)) :
    joinNl (a :: b :: t) = a ++ '\n' :: joinNl (b :: t) := by
  simp [joinNl]

theorem intercalate_go_data (s : String) :
    ∀ (l : List String) (acc : String),
      (String.intercalate.go acc s l).data
        = acc.data ++ (l.map fun a => s.data ++ a.data).flatten := by
  intro l
  induction l with
  | nil => intro acc; simp [String.intercalate.go]
  | cons a as ih =>
    intro acc
    rw [String.intercalate.go, ih, String.data_append, String.data_append]
    simp

theorem makeGridString_data (g : LevelGrid) :
    (makeGridString g).data = joinNl (g.map fun row => row.map Cell.toChar) := by
  cases g with
  | nil => rfl
  | cons r t =>
    show (String.intercalate "\n" ((r :: t).map fun row =>
      String.mk (row.map Cell.toChar))).data = _
    rw [List.map_cons, String.intercalate, intercalate_go_data]
    simp only [joinNl, List.map_cons, List.map_map]
    rfl

theorem append_newline_inj :
    ∀ {a : List Char} {b t₁ t₂ : List Char}, '\n' ∉ a → '\n' ∉ b →
      a ++ '\n' :: t₁ = b ++ '\n' :: t₂ → a = b ∧ t₁ = t₂ := by
  intro a
  induction a with
  | nil =>
    intro b t₁ t₂ _ hb h
    cases b with
    | nil => simpa using h
    | cons c b' =>
      exfalso
      rw [List.nil_append, List.cons_append] at h
      injection h with h1 _
      exact hb (h1 ▸ List.mem_cons_self c b')
  | cons c a' ih =>
    intro b t₁ t₂ ha hb h
    cases b with
    | nil =>
      exfalso
      rw [List.nil_append, List.cons_append] at h
      injection h with h1 _
      exact ha (h1.symm ▸ List.mem_cons_self c a')
    | cons c' b' =>
      rw [List.cons_append, List.cons_append] at h
      injection h with h1 h2
      obtain ⟨hab, ht⟩ := ih (fun hm => ha (List.mem_cons_of_mem c hm))
        (fun hm => hb (List.mem_cons_of_mem c' hm)) h2
      exact ⟨by rw [h1, hab], ht⟩

theorem joinNl_inj_nonempty :
    ∀ (A B : List (List Char)), (∀ r ∈ A, '\n' ∉ r ∧ r ≠ []) →
      (∀ r ∈ B, '\n' ∉ r ∧ r ≠ []) → joinNl A = joinNl B → A = B := by
  intro A
  induction A with
  | nil =>
    intro B _ hB h
    cases B with
    | nil => rfl
    | cons b bs =>
      exfalso
      have hb := (hB b (List.mem_cons_self b bs)).2
      have : ([] : List Char) = b ++ (bs.map fun r => '\n' :: r).flatten := h
      cases b with
      | nil => exact hb rfl
      | cons c b' => cases this
  | cons a as ih =>
    intro B hA hB h
    cases B with
    | nil =>
      exfalso
      have ha := (hA a (List.mem_cons_self a as)).2
      have : a ++ (as.map fun r => '\n' :: r).flatten = ([] : List Char) := h
      cases a with
      | nil => exact ha rfl
      | cons c a' => cases this
    | cons b bs =>
      have ha := hA a (List.mem_cons_self a as)
      have hb := hB b (List.mem_cons_self b bs)
      cases as with
      | nil =>
        cases bs with
        | nil =>
          have : a = b := by simpa [joinNl] using h
          rw [this]
        | cons b' bs' =>
          exfalso
          have h' : a = b ++ '\n' :: joinNl (b' :: bs') := by
            rw [← joinNl_cons_cons]
            simpa [joinNl] using h
          exact ha.1 (h' ▸ (List.mem_append.mpr (Or.inr
            (List.mem_cons_self '\n' _))))
      | cons a' as' =>
        cases bs with
        | nil =>
          exfalso
          have h' : b = a ++ '\n' :: joinNl (a' :: as') := by
            rw [← joinNl_cons_cons]
            simpa [joinNl] using h.symm
          exact hb.1 (h' ▸ (List.mem_append.mpr (Or.inr
            (List.mem_cons_self '\n' _))))
        | cons b' bs' =>
          rw [joinNl_cons_cons, joinNl_cons_cons] at h
          obtain ⟨h1, h2⟩ := append_newline_inj ha.1 hb.1 h
          have h3 := ih (b' :: bs')
            (fun r hr => hA r (List.mem_cons_of_mem a hr))
            (fun r hr => hB r (List.mem_cons_of_mem b hr)) h2
          rw [h1, h3]

theorem joinNl_inj_shape :
    ∀ (A B : List (List Char)), A.map List.length = B.map List.length →
      joinNl A = joinNl B → A = B := by
  intro A
  induction A with
  | nil =>
    intro B hsh _
    cases B with
    | nil => rfl
    | cons b bs => cases hsh
  | cons a as ih =>
    intro B hsh h
    cases B with
    | nil => cases hsh
    | cons b bs =>
      rw [List.map_cons, List.map_cons] at hsh
      injection hsh with hlen hsh'
      cases as with
      | nil =>
        cases bs with
        | nil =>
          have : a = b := by simpa [joinNl] using h
          rw [this]
        | cons b' bs' => cases hsh'
      | cons a' as' =>
        cases bs with
        | nil => cases hsh'
        | cons b' bs' =>
          rw [joinNl_cons_cons, joinNl_cons_cons] at h
          obtain ⟨h1, h2⟩ := List.append_inj h hlen
          injection h2 with _ h3
          rw [h1, ih (b' :: bs') hsh' h3]

theorem makeGridString_inj_shape {a b : LevelGrid}
    (hsh : a.map List.length = b.map List.length)
    (h : makeGridString a = makeGridString b) : a = b := by
  have hd : joinNl (a.map fun r => r.map Cell.toChar)
      = joinNl (b.map fun r => r.map Cell.toChar) := by
    rw [← makeGridString_data, ← makeGridString_data, h]
  have hsh' : (a.map fun r => r.map Cell.toChar).map List.length
      = (b.map fun r => r.map Cell.toChar).map List.length := by
    rw [List.map_map, List.map_map]
    have : (List.length ∘ fun r : List Cell => r.map Cell.toChar) = List.length := by
      funext r
      simp
    rw [this, hsh]
  have h2 := joinNl_inj_shape _ _ hsh' hd
  have hinj : Function.Injective fun r : List Cell => r.map Cell.toChar :=
    List.map_injective_iff.mpr toChar_injective
  exact List.map_injective_iff.mpr hinj h2

theorem makeGridString_inj_rows {a b : LevelGrid}
    (ha : ∀ r ∈ a, r ≠ []) (hb : ∀ r ∈ b, r ≠ [])
    (h : makeGridString a = makeGridString b) : a = b := by
  have hd : joinNl (a.map fun r => r.map Cell.toChar)
      = joinNl (b.map fun r => r.map Cell.toChar) := by
    rw [← makeGridString_data, ← makeGridString_data, h]
  have hcond : ∀ (g : LevelGrid), (∀ r ∈ g, r ≠ []) →
      ∀ r ∈ (g.map fun r => r.map Cell.toChar), '\n' ∉ r ∧ r ≠ [] := by
    intro g hg r hr
    obtain ⟨r₀, hr₀, hmap⟩ := List.mem_map.mp hr
    constructor
    · intro hmem
      rw [← hmap] at hmem
      obtain ⟨c, _, hc⟩ := List.mem_map.mp hmem
      exact toChar_ne_newline c hc
    · intro hnil
      rw [← hmap] at hnil
      exact hg r₀ hr₀ (List.map_eq_nil_iff.mp hnil)
  have h2 := joinNl_inj_nonempty _ _ (hcond a ha) (hcond b hb) hd
  have hinj : Function.Injective fun r : List Cell => r.map Cell.toChar :=
    List.map_injective_iff.mpr toChar_injective
  exact List.map_injective_iff.mpr hinj h2

/-! ## BFS helper lemmas -/

/-- Canonical keys are injective on the states reachable from a common start
(they all share the start's shape). -/
theorem key_inj_reach {start g h : LevelGrid} (hg : ∃ m, ReachN start m g)
    (hh : ∃ m, ReachN start m h) (hk : makeGridString g = makeGridString h) :
    g = h := by
  obtain ⟨mg, hg⟩ := hg
  obtain ⟨mh, hh⟩ := hh
  exact makeGridString_inj_shape (by rw [ReachN_shape hg, ReachN_shape hh]) hk

theorem ReachN_zero_inv {start g : LevelGrid} (h : ReachN start 0 g) : g = start := by
  cases h
  rfl

theorem exists_cat_pos {g : LevelGrid} (h : 0 < catCount g) :
    ∃ (y x : Nat) (c : Cell),
      (g[y]?.bind fun row => row[x]?) = some c ∧ isCatCell c = true := by
  have hrow : ∃ row ∈ g, 0 < row.countP isCatCell := by
    by_contra hno
    push_neg at hno
    have hz : (g.map fun row => row.countP isCatCell).sum = 0 := by
      rw [List.sum_eq_zero_iff]
      intro n hn
      obtain ⟨row, hmem, hval⟩ := List.mem_map.mp hn
      have := hno row hmem
      omega
    unfold catCount countCells at h
    omega
  obtain ⟨row, hmem, hcount⟩ := hrow
  obtain ⟨c, hcmem, hc⟩ := List.countP_pos_iff.mp hcount
  obtain ⟨x, hx⟩ := List.mem_iff_getElem?.mp hcmem
  obtain ⟨y, hy⟩ := List.mem_iff_getElem?.mp hmem
  exact ⟨y, x, c, by rw [hy]; exact hx, hc⟩

theorem flatten_inj_shape :
    ∀ (a b : LevelGrid), a.map List.length = b.map List.length →
      a.flatten = b.flatten → a = b := by
  intro a
  induction a with
  | nil =>
    intro b hsh _
    cases b with
    | nil => rfl
    | cons r t => cases hsh
  | cons r t ih =>
    intro b hsh hfl
    cases b with
    | nil => cases hsh
    | cons r' t' =>
      rw [List.map_cons, List.map_cons] at hsh
      injection hsh with hlen hsh'
      rw [List.flatten_cons, List.flatten_cons] at hfl
      obtain ⟨h1, h2⟩ := List.append_inj hfl hlen
      rw [h1, ih t' hsh' h2]

/-- A list of pairwise-distinct grids of a common shape `s` has at most
`7 ^ s.sum` elements: each is determined by its flattening, a vector of
`s.sum` cells. -/
theorem nodup_shape_length_le (s : List Nat) (l : List LevelGrid)
    (hnd : (l.map makeGridString).Nodup)
    (hsh : ∀ g ∈ l, g.map List.length = s) : l.length ≤ 7 ^ s.sum := by
  have hnd' : l.Nodup := List.Nodup.of_map _ hnd
  let toVec : (g : LevelGrid) → g.map List.length = s → Mathlib.Vector Cell s.sum :=
    fun g hg => ⟨g.flatten, by rw [List.length_flatten, hg]⟩
  have hpm : (l.pmap toVec hsh).Nodup := by
    refine List.Nodup.pmap ?_ hnd'
    intro g hg g' hg' heq
    exact flatten_inj_shape g g' (by rw [hg, hg'])
      (congrArg Subtype.val heq)
  have hlen := List.Nodup.length_le_card hpm
  rw [List.length_pmap, card_vector] at hlen
  have hcard : Fintype.card Cell = 7 := rfl
  rw [hcard] at hlen
  exact hlen

/-! ## What the neighbor loop does -/

theorem bfsExpand_spec (ns : List LevelGrid) :
    ∀ (V : List String) (Q : List (LevelGrid × Nat)) (d : Nat),
      ∃ ext : List (LevelGrid × Nat),
        bfsExpand (V, Q) d ns
          = ((ext.map fun e => makeGridString e.1).reverse ++ V, Q ++ ext) ∧
        (∀ e ∈ ext, e.2 = d + 1 ∧ e.1 ∈ ns) ∧
        (∀ e ∈ ext, makeGridString e.1 ∉ V) ∧
        (ext.map fun e => makeGridString e.1).Nodup ∧
        (∀ n ∈ ns, makeGridString n ∈ (bfsExpand (V, Q) d ns).1) := by
  induction ns with
  | nil =>
    intro V Q d
    exact ⟨[], by simp [bfsExpand], by simp, by simp, by simp, by simp⟩
  | cons n ns ih =>
    intro V Q d
    by_cases hmem : makeGridString n ∈ V
    · have hstep : bfsExpand (V, Q) d (n :: ns) = bfsExpand (V, Q) d ns := by
        simp [bfsExpand, bfsInsert, hmem]
      obtain ⟨ext, he, h1, h2, h3, h4⟩ := ih V Q d
      refine ⟨ext, hstep ▸ he, fun e hm => ⟨(h1 e hm).1,
        List.mem_cons_of_mem _ (h1 e hm).2⟩, h2, h3, ?_⟩
      intro m hm
      rcases List.mem_cons.mp hm with hm | hm
      · rw [hstep, he]
        subst hm
        exact List.mem_append.mpr (Or.inr hmem)
      · rw [hstep]
        exact h4 m hm
    · have hstep : bfsExpand (V, Q) d (n :: ns)
          = bfsExpand (makeGridString n :: V, Q ++ [(n, d + 1)]) d ns := by
        simp [bfsExpand, bfsInsert, hmem]
      obtain ⟨ext, he, h1, h2, h3, h4⟩ := ih (makeGridString n :: V) (Q ++ [(n, d + 1)]) d
      refine ⟨(n, d + 1) :: ext, ?_, ?_, ?_, ?_, ?_⟩
      · rw [hstep, he]
        simp [List.append_assoc]
      · intro e hm
        rcases List.mem_cons.mp hm with hm | hm
        · subst hm
          exact ⟨rfl, List.mem_cons_self n ns⟩
        · exact ⟨(h1 e hm).1, List.mem_cons_of_mem _ (h1 e hm).2⟩
      · intro e hm
        rcases List.mem_cons.mp hm with hm | hm
        · subst hm
          exact hmem
        · intro hv
          exact h2 e hm (List.mem_cons_of_mem _ hv)
      · rw [List.map_cons, List.nodup_cons]
        refine ⟨?_, h3⟩
        intro hin
        obtain ⟨e, hm, hkey⟩ := List.mem_map.mp hin
        exact h2 e hm (hkey ▸ List.mem_cons_self _ _)
      · intro m hm
        rcases List.mem_cons.mp hm with hm | hm
        · rw [hstep, he]
          subst hm
          exact List.mem_append.mpr (Or.inr (List.mem_cons_self _ _))
        · rw [hstep]
          exact h4 m hm

/-! ## The BFS loop invariant

`V` is the visited set, `Q` the frontier, and `P` the ghost list of grids
already dequeued and expanded (all of them non-winning). -/

structure BFSInv (start : LevelGrid) (V : List String)
    (Q : List (LevelGrid × Nat)) (P : List LevelGrid) : Prop where
  start_mem : makeGridString start ∈ V
  v_sub : ∀ s ∈ V, (∃ p ∈ P, makeGridString p = s) ∨ ∃ e ∈ Q, makeGridString e.1 = s
  p_sub : ∀ p ∈ P, makeGridString p ∈ V
  q_sub : ∀ e ∈ Q, makeGridString e.1 ∈ V
  q_reach : ∀ e ∈ Q, ReachN start e.2 e.1
  q_min : ∀ e ∈ Q, ∀ m, ReachN start m e.1 → e.2 ≤ m
  q_sorted : Q.Pairwise fun e e' => e.2 ≤ e'.2
  q_band : ∀ e ∈ Q, ∀ e' ∈ Q, e.2 ≤ e'.2 + 1
  p_reach : ∀ p ∈ P, ∃ m, ReachN start m p
  p_not_win : ∀ p ∈ P, getEmptyBowlCount p ≠ 0
  p_closed : ∀ p ∈ P, ∀ d ∈ dirs, ∀ g', moveCat p d.1 d.2 = some g' →
    makeGridString g' ∈ V
  covered : ∀ m g, ReachN start m g → (∀ e ∈ Q, m ≤ e.2) → makeGridString g ∈ V
  q_nodup : (Q.map fun e => makeGridString e.1).Nodup
  pq_disj : ∀ p ∈ P, ∀ e ∈ Q, makeGridString p ≠ makeGridString e.1
  p_nodup : (P.map makeGridString).Nodup

theorem BFSInv_init (start : LevelGrid) :
    BFSInv start [makeGridString start] [(start, 0)] [] := by
  refine ⟨?_, ?_, ?_, ?_, ?_, ?_, ?_, ?_, ?_, ?_, ?_, ?_, ?_, ?_, ?_⟩
  · exact List.mem_singleton.mpr rfl
  · intro s hs
    exact Or.inr ⟨(start, 0), List.mem_singleton.mpr rfl,
      (List.mem_singleton.mp hs).symm⟩
  · intro p hp
    cases hp
  · intro e he
    rw [List.mem_singleton.mp he]
    exact List.mem_singleton.mpr rfl
  · intro e he
    rw [List.mem_singleton.mp he]
    exact ReachN.zero start
  · intro e he m hm
    rw [List.mem_singleton.mp he]
    omega
  · simp
  · intro e he e' he'
    rw [List.mem_singleton.mp he, List.mem_singleton.mp he']
    omega
  · intro p hp
    cases hp
  · intro p hp
    cases hp
  · intro p hp
    cases hp
  · intro m g hre hle
    have h0 : m ≤ 0 := hle (start, 0) (List.mem_singleton.mpr rfl)
    interval_cases m
    rw [ReachN_zero_inv hre]
    exact List.mem_singleton.mpr rfl
  · simp
  · intro p hp
    cases hp
  · simp

/-- A recorded successor of a dequeued grid is one of the four neighbors. -/
theorem moveCat_dirs_mem {g n1 n2 n3 n4 : LevelGrid}
    (h1 : moveCat g (-1) 0 = some n1) (h2 : moveCat g 1 0 = some n2)
    (h3 : moveCat g 0 (-1) = some n3) (h4 : moveCat g 0 1 = some n4) :
    ∀ d ∈ dirs, ∀ g', moveCat g d.1 d.2 = some g' → g' ∈ [n1, n2, n3, n4] := by
  intro d hd g' hmv
  simp only [dirs, List.mem_cons, List.not_mem_nil, or_false] at hd
  rcases hd with h | h | h | h <;> subst h
  · have hmv' : moveCat g (-1) 0 = some g' := hmv
    rw [h1] at hmv'
    injection hmv' with h'
    simp [h']
  · have hmv' : moveCat g 1 0 = some g' := hmv
    rw [h2] at hmv'
    injection hmv' with h'
    simp [h']
  · have hmv' : moveCat g 0 (-1) = some g' := hmv
    rw [h3] at hmv'
    injection hmv' with h'
    simp [h']
  · have hmv' : moveCat g 0 1 = some g' := hmv
    rw [h4] at hmv'
    injection hmv' with h'
    simp [h']

/-- Each of the four neighbors is reachable in one more move. -/
theorem mem_neighbors_reach {start g : LevelGrid} {d₀ : Nat}
    {n1 n2 n3 n4 n : LevelGrid} (hre : ReachN start d₀ g)
    (h1 : moveCat g (-1) 0 = some n1) (h2 : moveCat g 1 0 = some n2)
    (h3 : moveCat g 0 (-1) = some n3) (h4 : moveCat g 0 1 = some n4)
    (hn : n ∈ [n1, n2, n3, n4]) : ReachN start (d₀ + 1) n := by
  simp only [List.mem_cons, List.not_mem_nil, or_false] at hn
  rcases hn with h | h | h | h <;> subst h
  · exact ReachN.succ hre (by simp [dirs]) h1
  · exact ReachN.succ hre (by simp [dirs]) h2
  · exact ReachN.succ hre (by simp [dirs]) h3
  · exact ReachN.succ hre (by simp [dirs]) h4

theorem pairwise_le_of_const {k : Nat} :
    ∀ (l : List (LevelGrid × Nat)), (∀ e ∈ l, e.2 = k) →
      l.Pairwise fun e e' => e.2 ≤ e'.2 := by
  intro l
  induction l with
  | nil => intro _; exact List.Pairwise.nil
  | cons a t ih =>
    intro h
    rw [List.pairwise_cons]
    refine ⟨fun e he => ?_, ih fun e he => h e (List.mem_cons_of_mem a he)⟩
    rw [h a (List.mem_cons_self a t), h e (List.mem_cons_of_mem a he)]

/-- One iteration of the solver loop preserves the invariant: the dequeued,
non-winning grid `g` joins the processed list and its four neighbors are
merged into the visited set and the frontier. -/
theorem BFSInv_step {start g : LevelGrid} {d₀ : Nat} {V : List String}
    {rest : List (LevelGrid × Nat)} {P : List LevelGrid} {n1 n2 n3 n4 : LevelGrid}
    (inv : BFSInv start V ((g, d₀) :: rest) P)
    (hwin : getEmptyBowlCount g ≠ 0)
    (h1 : moveCat g (-1) 0 = some n1) (h2 : moveCat g 1 0 = some n2)
    (h3 : moveCat g 0 (-1) = some n3) (h4 : moveCat g 0 1 = some n4) :
    BFSInv start (bfsExpand (V, rest) d₀ [n1, n2, n3, n4]).1
      (bfsExpand (V, rest) d₀ [n1, n2, n3, n4]).2 (P ++ [g]) := by
  obtain ⟨ext, he, hext1, hext2, hext3, hns⟩ := bfsExpand_spec [n1, n2, n3, n4] V rest d₀
  rw [he] at hns ⊢
  have hreach_g : ReachN start d₀ g := inv.q_reach (g, d₀) (List.mem_cons_self _ _)
  have hkey_g : makeGridString g ∈ V := inv.q_sub (g, d₀) (List.mem_cons_self _ _)
  have hrest_ge : ∀ e ∈ rest, d₀ ≤ e.2 := (List.pairwise_cons.mp inv.q_sorted).1
  have hrest_sorted : rest.Pairwise (fun e e' => e.2 ≤ e'.2) :=
    (List.pairwise_cons.mp inv.q_sorted).2
  have hrest_le : ∀ e ∈ rest, e.2 ≤ d₀ + 1 := fun e hemem =>
    inv.q_band e (List.mem_cons_of_mem _ hemem) (g, d₀) (List.mem_cons_self _ _)
  have hext_d : ∀ e ∈ ext, e.2 = d₀ + 1 := fun e hemem => (hext1 e hemem).1
  have hext_ns : ∀ e ∈ ext, e.1 ∈ [n1, n2, n3, n4] := fun e hemem => (hext1 e hemem).2
  have hext_reach : ∀ e ∈ ext, ReachN start (d₀ + 1) e.1 := fun e hemem =>
    mem_neighbors_reach hreach_g h1 h2 h3 h4 (hext_ns e hemem)
  have hVsub : V ⊆ (ext.map fun e => makeGridString e.1).reverse ++ V :=
    List.subset_append_right _ _
  have hcov : ∀ m g'', m ≤ d₀ → ReachN start m g'' → makeGridString g'' ∈ V := by
    intro m g'' hm hre
    refine inv.covered m g'' hre ?_
    intro e hemem
    rcases List.mem_cons.mp hemem with hemem | hemem
    · rw [hemem]
      exact hm
    · exact hm.trans (hrest_ge e hemem)
  refine ⟨?_, ?_, ?_, ?_, ?_, ?_, ?_, ?_, ?_, ?_, ?_, ?_, ?_, ?_, ?_⟩
  · exact hVsub inv.start_mem
  · intro s hs
    rcases List.mem_append.mp hs with hs | hs
    · rw [List.mem_reverse] at hs
      obtain ⟨e, hemem, hkey⟩ := List.mem_map.mp hs
      exact Or.inr ⟨e, List.mem_append.mpr (Or.inr hemem), hkey⟩
    · rcases inv.v_sub s hs with ⟨p, hp, hk⟩ | ⟨e, hemem, hk⟩
      · exact Or.inl ⟨p, List.mem_append.mpr (Or.inl hp), hk⟩
      · rcases List.mem_cons.mp hemem with hemem | hemem
        · refine Or.inl ⟨g, List.mem_append.mpr (Or.inr (List.mem_singleton.mpr rfl)), ?_⟩
          rw [hemem] at hk
          exact hk
        · exact Or.inr ⟨e, List.mem_append.mpr (Or.inl hemem), hk⟩
  · intro p hp
    rcases List.mem_append.mp hp with hp | hp
    · exact hVsub (inv.p_sub p hp)
    · rw [List.mem_singleton.mp hp]
      exact hVsub hkey_g
  · intro e hemem
    rcases List.mem_append.mp hemem with hemem | hemem
    · exact hVsub (inv.q_sub e (List.mem_cons_of_mem _ hemem))
    · exact hns e.1 (hext_ns e hemem)
  · intro e hemem
    rcases List.mem_append.mp hemem with hemem | hemem
    · exact inv.q_reach e (List.mem_cons_of_mem _ hemem)
    · rw [hext_d e hemem]
      exact hext_reach e hemem
  · intro e hemem m hm
    rcases List.mem_append.mp hemem with hemem | hemem
    · exact inv.q_min e (List.mem_cons_of_mem _ hemem) m hm
    · by_contra hlt
      push_neg at hlt
      have hmle : m ≤ d₀ := by
        have := hext_d e hemem
        omega
      exact hext2 e hemem (hcov m e.1 hmle hm)
  · rw [List.pairwise_append]
    refine ⟨hrest_sorted, pairwise_le_of_const ext hext_d, ?_⟩
    intro a ha b hb
    have := hrest_le a ha
    have := hext_d b hb
    omega
  · intro e hemem e' hemem'
    rcases List.mem_append.mp hemem with hemem | hemem <;>
      rcases List.mem_append.mp hemem' with hemem' | hemem'
    · exact inv.q_band e (List.mem_cons_of_mem _ hemem) e' (List.mem_cons_of_mem _ hemem')
    · have := hrest_le e hemem
      have := hext_d e' hemem'
      omega
    · have := hext_d e hemem
      have := hrest_ge e' hemem'
      omega
    · have := hext_d e hemem
      have := hext_d e' hemem'
      omega
  · intro p hp
    rcases List.mem_append.mp hp with hp | hp
    · exact inv.p_reach p hp
    · rw [List.mem_singleton.mp hp]
      exact ⟨d₀, hreach_g⟩
  · intro p hp
    rcases List.mem_append.mp hp with hp | hp
    · exact inv.p_not_win p hp
    · rw [List.mem_singleton.mp hp]
      exact hwin
  · intro p hp d hd g' hmv
    rcases List.mem_append.mp hp with hp | hp
    · exact hVsub (inv.p_closed p hp d hd g' hmv)
    · rw [List.mem_singleton.mp hp] at hmv
      exact hns g' (moveCat_dirs_mem h1 h2 h3 h4 d hd g' hmv)
  · intro m g'' hre hle
    by_cases hm : m ≤ d₀
    · exact hVsub (hcov m g'' hm hre)
    · by_cases hq : rest ++ ext = []
      · have hrest_nil : rest = [] := List.append_eq_nil.mp hq |>.1
        have hext_nil : ext = [] := List.append_eq_nil.mp hq |>.2
        clear hle hm
        induction hre with
        | zero => exact hVsub inv.start_mem
        | succ hprev hdir hmv ih =>
          have ihV := ih
          rw [hext_nil] at ihV
          simp only [List.map_nil, List.reverse_nil, List.nil_append] at ihV
          rcases inv.v_sub _ ihV with ⟨p, hp, hk⟩ | ⟨e, hemem, hk⟩
          · have hpeq := key_inj_reach (inv.p_reach p hp) ⟨_, hprev⟩ hk
            subst hpeq
            exact hVsub (inv.p_closed p hp _ hdir _ hmv)
          · rcases List.mem_cons.mp hemem with hemem | hemem
            · subst hemem
              have hgeq := key_inj_reach ⟨_, hreach_g⟩ ⟨_, hprev⟩ hk
              rw [← hgeq] at hmv
              exact hns _ (moveCat_dirs_mem h1 h2 h3 h4 _ hdir _ hmv)
            · rw [hrest_nil] at hemem
              cases hemem
      · have hmle : m ≤ d₀ + 1 := by
          obtain ⟨e₀, he₀⟩ := List.exists_mem_of_ne_nil _ hq
          have hle₀ := hle e₀ he₀
          rcases List.mem_append.mp he₀ with he₀ | he₀
          · have := hrest_le e₀ he₀
            omega
          · have := hext_d e₀ he₀
            omega
        have hmeq : m = d₀ + 1 := by omega
        subst hmeq
        cases hre with
        | succ hprev hdir hmv =>
          have hkeyprev := hcov d₀ _ le_rfl hprev
          rcases inv.v_sub _ hkeyprev with ⟨p, hp, hk⟩ | ⟨e, hemem, hk⟩
          · have hpeq := key_inj_reach (inv.p_reach p hp) ⟨_, hprev⟩ hk
            subst hpeq
            exact hVsub (inv.p_closed p hp _ hdir _ hmv)
          · rcases List.mem_cons.mp hemem with hemem | hemem
            · subst hemem
              have hgeq := key_inj_reach ⟨_, hreach_g⟩ ⟨_, hprev⟩ hk
              rw [← hgeq] at hmv
              exact hns _ (moveCat_dirs_mem h1 h2 h3 h4 _ hdir _ hmv)
            · have hgeq := key_inj_reach ⟨_, inv.q_reach e
                (List.mem_cons_of_mem _ hemem)⟩ ⟨_, hprev⟩ hk
              have hmin := inv.q_min e (List.mem_cons_of_mem _ hemem) d₀
                (by rw [hgeq]; exact hprev)
              have hge := hle e (List.mem_append.mpr (Or.inl hemem))
              have := hrest_ge e hemem
              omega
  · rw [List.map_append, List.nodup_append]
    have hnd := inv.q_nodup
    rw [List.map_cons, List.nodup_cons] at hnd
    refine ⟨hnd.2, hext3, ?_⟩
    · intro s hs hs'
      obtain ⟨e, hemem, hkey⟩ := List.mem_map.mp hs
      obtain ⟨e', hemem', hkey'⟩ := List.mem_map.mp hs'
      refine hext2 e' hemem' ?_
      rw [hkey', ← hkey]
      exact inv.q_sub e (List.mem_cons_of_mem _ hemem)
  · intro p hp e hemem
    rcases List.mem_append.mp hp with hp | hp <;>
      rcases List.mem_append.mp hemem with hemem | hemem
    · exact inv.pq_disj p hp e (List.mem_cons_of_mem _ hemem)
    · intro heq
      exact hext2 e hemem (heq ▸ inv.p_sub p hp)
    · rw [List.mem_singleton.mp hp]
      intro heq
      have hnd := inv.q_nodup
      rw [List.map_cons, List.nodup_cons] at hnd
      exact hnd.1 (heq ▸ List.mem_map.mpr ⟨e, hemem, rfl⟩)
    · rw [List.mem_singleton.mp hp]
      intro heq
      exact hext2 e hemem (heq ▸ hkey_g)
  · rw [List.map_append, List.nodup_append]
    refine ⟨inv.p_nodup, by simp, ?_⟩
    intro s hs hs'
    obtain ⟨p, hp, hkey⟩ := List.mem_map.mp hs
    rw [List.map_singleton, List.mem_singleton] at hs'
    exact inv.pq_disj p hp (g, d₀) (List.mem_cons_self _ _) (by rw [hkey, hs'])

/-! ## Soundness and termination of the solver loop -/

theorem solveLoop_sound (start : LevelGrid) :
    ∀ (fuel : Nat) (V : List String) (Q : List (LevelGrid × Nat)) (P : List LevelGrid),
      BFSInv start V Q P →
      (∀ d, solveLoop fuel V Q = some (some d) →
        (∃ g, ReachN start d g ∧ getEmptyBowlCount g = 0) ∧
        (∀ m g, ReachN start m g → getEmptyBowlCount g = 0 → d ≤ m)) ∧
      (solveLoop fuel V Q = some none →
        ∀ m g, ReachN start m g → getEmptyBowlCount g ≠ 0) := by
  intro fuel
  induction fuel with
  | zero =>
    intro V Q P _
    constructor
    · intro d h
      simp [solveLoop] at h
    · intro h
      simp [solveLoop] at h
  | succ fuel ih =>
    intro V Q P inv
    match Q with
    | [] =>
      constructor
      · intro d h
        simp [solveLoop] at h
      · intro _ m g hre hwin
        have hkey : makeGridString g ∈ V := inv.covered m g hre (by intro e he; cases he)
        rcases inv.v_sub _ hkey with ⟨p, hp, hk⟩ | ⟨e, he, hk⟩
        · have heq := key_inj_reach (inv.p_reach p hp) ⟨_, hre⟩ hk
          subst heq
          exact inv.p_not_win p hp hwin
        · cases he
    | (g, d₀) :: rest =>
      by_cases hwin : getEmptyBowlCount g = 0
      · constructor
        · intro d h
          simp only [solveLoop] at h
          rw [if_pos hwin] at h
          injection h with h
          injection h with h
          subst h
          refine ⟨⟨g, inv.q_reach (g, d₀) (List.mem_cons_self _ _), hwin⟩, ?_⟩
          intro m g' hre hwin'
          by_contra hlt
          push_neg at hlt
          have hkey : makeGridString g' ∈ V := by
            refine inv.covered m g' hre ?_
            intro e he
            rcases List.mem_cons.mp he with he | he
            · rw [he]
              omega
            · have := (List.pairwise_cons.mp inv.q_sorted).1 e he
              omega
          rcases inv.v_sub _ hkey with ⟨p, hp, hk⟩ | ⟨e, he, hk⟩
          · have heq := key_inj_reach (inv.p_reach p hp) ⟨_, hre⟩ hk
            subst heq
            exact inv.p_not_win p hp hwin'
          · have heq := key_inj_reach ⟨_, inv.q_reach e he⟩ ⟨_, hre⟩ hk
            have hmin := inv.q_min e he m (by rw [heq]; exact hre)
            rcases List.mem_cons.mp he with he' | he'
            · rw [he'] at hmin
              simp only [] at hmin
              omega
            · have := (List.pairwise_cons.mp inv.q_sorted).1 e he'
              omega
        · intro h
          simp only [solveLoop] at h
          rw [if_pos hwin] at h
          exact absurd h (by simp)
      · simp only [solveLoop]
        rw [if_neg hwin]
        rcases hm1 : moveCat g (-1) 0 with _ | n1 <;>
          rcases hm2 : moveCat g 1 0 with _ | n2 <;>
          rcases hm3 : moveCat g 0 (-1) with _ | n3 <;>
          rcases hm4 : moveCat g 0 1 with _ | n4
        case neg.some.some.some.some =>
          have hinv' := BFSInv_step inv hwin hm1 hm2 hm3 hm4
          exact ih _ _ (P ++ [g]) hinv'
        all_goals {
          constructor
          · intro d h
            simp at h
          · intro h
            simp at h
        }

theorem solveLoop_term (start : LevelGrid) (hrect : Rectangular start)
    (hcat : 0 < catCount start) (hedge : EdgeWall start) :
    ∀ (fuel : Nat) (V : List String) (Q : List (LevelGrid × Nat)) (P : List LevelGrid),
      BFSInv start V Q P → 7 ^ cellCount start + 1 ≤ fuel + P.length →
      solveLoop fuel V Q ≠ none := by
  intro fuel
  induction fuel with
  | zero =>
    intro V Q P inv hfuel
    exfalso
    have hsh : ∀ p ∈ P, p.map List.length = start.map List.length := by
      intro p hp
      obtain ⟨m, hm⟩ := inv.p_reach p hp
      exact ReachN_shape hm
    have hbound := nodup_shape_length_le (start.map List.length) P inv.p_nodup hsh
    have hcc : cellCount start = (start.map List.length).sum := rfl
    rw [hcc] at hfuel
    omega
  | succ fuel ih =>
    intro V Q P inv hfuel
    match Q with
    | [] => simp [solveLoop]
    | (g, d₀) :: rest =>
      by_cases hwin : getEmptyBowlCount g = 0
      · simp [solveLoop, hwin]
      · have hreg : ReachN start d₀ g := inv.q_reach _ (List.mem_cons_self _ _)
        have hrectg : Rectangular g := ReachN_rectangular hreg hrect
        have hcatg : 0 < catCount g := by
          rw [ReachN_catCount hreg]
          exact hcat
        obtain ⟨⟨cy, cx⟩, hloc⟩ := getCatLocation_isSome hrectg (exists_cat_pos hcatg)
        have hedgeg : EdgeWall g := ReachN_edgeWall hreg hedge
        obtain ⟨m1, hm1⟩ := moveCat_isSome hedgeg hloc (-1) 0 (by decide)
        obtain ⟨m2, hm2⟩ := moveCat_isSome hedgeg hloc 1 0 (by decide)
        obtain ⟨m3, hm3⟩ := moveCat_isSome hedgeg hloc 0 (-1) (by decide)
        obtain ⟨m4, hm4⟩ := moveCat_isSome hedgeg hloc 0 1 (by decide)
        simp only [solveLoop]
        rw [if_neg hwin, hm1, hm2, hm3, hm4]
        have hinv' := BFSInv_step inv hwin hm1 hm2 hm3 hm4
        have hfuel' : 7 ^ cellCount start + 1 ≤ fuel + (P ++ [g]).length := by
          rw [List.length_append]
          simp only [List.length_singleton]
          omega
        exact ih _ _ (P ++ [g]) hinv' hfuel'

/-! ## Top-level facts about `solve` -/

theorem solve_some_spec {start : LevelGrid} {m : Nat}
    (h : solve start = some (some m)) :
    (∃ g, ReachN start m g ∧ getEmptyBowlCount g = 0) ∧
    (∀ k g, ReachN start k g → getEmptyBowlCount g = 0 → m ≤ k) :=
  ((solveLoop_sound start (7 ^ cellCount start + 1) [makeGridString start]
    [(start, 0)] [] (BFSInv_init start)).1 m h)

theorem solve_none_spec {start : LevelGrid} (h : solve start = some none) :
    ∀ m g, ReachN start m g → getEmptyBowlCount g ≠ 0 :=
  ((solveLoop_sound start (7 ^ cellCount start + 1) [makeGridString start]
    [(start, 0)] [] (BFSInv_init start)).2 h)

theorem solve_ne_none {start : LevelGrid} (hrect : Rectangular start)
    (hcat : 0 < catCount start) (hedge : EdgeWall start) : solve start ≠ none :=
  solveLoop_term start hrect hcat hedge (7 ^ cellCount start + 1)
    [makeGridString start] [(start, 0)] [] (BFSInv_init start) (by simp)

/-! ## Uniqueness of the agent position -/

theorem le_sum_of_getElem? :
    ∀ (l : List Nat) (i : Nat) (a : Nat), l[i]? = some a → a ≤ l.sum := by
  intro l
  induction l with
  | nil => intro i a h; simp at h
  | cons b t ih =>
    intro i a h
    match i with
    | 0 =>
      simp only [List.getElem?_cons_zero, Option.some.injEq] at h
      subst h
      simp
    | i + 1 =>
      simp only [List.getElem?_cons_succ] at h
      have := ih i a h
      simp only [List.sum_cons]
      omega

theorem two_le_sum_of_getElem?_ne :
    ∀ (l : List Nat) (i j : Nat) (a b : Nat), i ≠ j →
      l[i]? = some a → l[j]? = some b → a + b ≤ l.sum := by
  intro l
  induction l with
  | nil => intro i j a b _ h; simp at h
  | cons c t ih =>
    intro i j a b hij hi hj
    match i, j with
    | 0, 0 => exact absurd rfl hij
    | 0, j + 1 =>
      simp only [List.getElem?_cons_zero, Option.some.injEq] at hi
      simp only [List.getElem?_cons_succ] at hj
      subst hi
      have := le_sum_of_getElem? t j b hj
      simp only [List.sum_cons]
      omega
    | i + 1, 0 =>
      simp only [List.getElem?_cons_zero, Option.some.injEq] at hj
      simp only [List.getElem?_cons_succ] at hi
      subst hj
      have := le_sum_of_getElem? t i a hi
      simp only [List.sum_cons]
      omega
    | i + 1, j + 1 =>
      simp only [List.getElem?_cons_succ] at hi hj
      have := ih i j a b (by omega) hi hj
      simp only [List.sum_cons]
      omega

theorem countP_two_of_ne {p : Cell → Bool} :
    ∀ (l : List Cell) (i j : Nat) (a b : Cell), i ≠ j →
      l[i]? = some a → l[j]? = some b → p a = true → p b = true →
      2 ≤ l.countP p := by
  intro l
  induction l with
  | nil => intro i j a b _ h; simp at h
  | cons c t ih =>
    intro i j a b hij hi hj ha hb
    match i, j with
    | 0, 0 => exact absurd rfl hij
    | 0, j + 1 =>
      simp only [List.getElem?_cons_zero, Option.some.injEq] at hi
      simp only [List.getElem?_cons_succ] at hj
      subst hi
      have hpos : 0 < t.countP p :=
        List.countP_pos_iff.mpr ⟨b, List.getElem?_mem hj, hb⟩
      rw [List.countP_cons, ha, if_pos rfl]
      omega
    | i + 1, 0 =>
      simp only [List.getElem?_cons_zero, Option.some.injEq] at hj
      simp only [List.getElem?_cons_succ] at hi
      subst hj
      have hpos : 0 < t.countP p :=
        List.countP_pos_iff.mpr ⟨a, List.getElem?_mem hi, ha⟩
      rw [List.countP_cons, hb, if_pos rfl]
      omega
    | i + 1, j + 1 =>
      simp only [List.getElem?_cons_succ] at hi hj
      have := ih i j a b (by omega) hi hj ha hb
      rw [List.countP_cons]
      omega

/-- With exactly one cat on the grid, any two cat positions coincide. -/
theorem cat_positions_eq {grid : LevelGrid} (hcat : catCount grid = 1)
    {y x y' x' : Nat} {c c' : Cell}
    (h : (grid[y]?.bind fun r => r[x]?) = some c) (hc : isCatCell c = true)
    (h' : (grid[y']?.bind fun r => r[x']?) = some c') (hc' : isCatCell c' = true) :
    y = y' ∧ x = x' := by
  obtain ⟨row, hrow, hcell⟩ := Option.bind_eq_some.mp h
  obtain ⟨row', hrow', hcell'⟩ := Option.bind_eq_some.mp h'
  by_contra hne
  have h2 : 2 ≤ catCount grid := by
    by_cases hy : y = y'
    · subst hy
      rw [hrow] at hrow'
      injection hrow' with hr
      subst hr
      have hx : x ≠ x' := fun hx => hne ⟨rfl, hx⟩
      have hcp := countP_two_of_ne row x x' c c' hx hcell hcell' hc hc'
      have hmap : (grid.map fun r => r.countP isCatCell)[y]?
          = some (row.countP isCatCell) := by
        rw [List.getElem?_map, hrow]
        rfl
      have hle := le_sum_of_getElem? _ y _ hmap
      unfold catCount countCells
      omega
    · have hmap : (grid.map fun r => r.countP isCatCell)[y]?
          = some (row.countP isCatCell) := by
        rw [List.getElem?_map, hrow]
        rfl
      have hmap' : (grid.map fun r => r.countP isCatCell)[y']?
          = some (row'.countP isCatCell) := by
        rw [List.getElem?_map, hrow']
        rfl
      have hsum := two_le_sum_of_getElem?_ne _ y y' _ _ hy hmap hmap'
      have hc1 : 0 < row.countP isCatCell :=
        List.countP_pos_iff.mpr ⟨c, List.getElem?_mem hcell, hc⟩
      have hc1' : 0 < row'.countP isCatCell :=
        List.countP_pos_iff.mpr ⟨c', List.getElem?_mem hcell', hc'⟩
      unfold catCount countCells
      omega
  omega

/-- A cellwise-additive split of a count into two disjoint counts. -/
theorem countCells_add_of (q r p : Cell → Bool)
    (hpt : ∀ c, (if p c then 1 else 0)
      = (if q c then 1 else 0) + (if r c then 1 else 0)) :
    ∀ g : LevelGrid, countCells p g = countCells q g + countCells r g := by
  have hrow : ∀ row : List Cell, row.countP p = row.countP q + row.countP r := by
    intro row
    induction row with
    | nil => simp
    | cons c t ih =>
      rw [List.countP_cons, List.countP_cons, List.countP_cons, ih]
      have := hpt c
      omega
  intro g
  induction g with
  | nil => simp [countCells]
  | cons row t ih =>
    unfold countCells at ih ⊢
    rw [List.map_cons, List.sum_cons, List.map_cons, List.sum_cons,
      List.map_cons, List.sum_cons, ih, hrow row]
    omega

/-- Walls line the border: the first and last rows are all wall, and every
row starts and ends with a wall. -/
def Bordered (grid : LevelGrid) : Prop :=
  (∀ c ∈ grid.head?.getD [], c = Cell.wall) ∧
  (∀ c ∈ grid.getLast?.getD [], c = Cell.wall) ∧
  ∀ row ∈ grid, row.head?.getD Cell.wall = Cell.wall ∧
    row.getLast?.getD Cell.wall = Cell.wall

instance (grid : LevelGrid) : Decidable (Rectangular grid) := by
  unfold Rectangular
  infer_instance

instance (grid : LevelGrid) : Decidable (Bordered grid) := by
  unfold Bordered
  infer_instance

/-- On a rectangular single-cat grid the scan finds exactly the cat's cell. -/
theorem getCatLocation_eq {grid : LevelGrid} (hrect : Rectangular grid)
    (hcat : catCount grid = 1) {ay ax : Nat} {c : Cell}
    (hag : (grid[ay]?.bind fun r => r[ax]?) = some c) (hc : isCatCell c = true) :
    getCatLocation grid = some (ay, ax) := by
  obtain ⟨⟨cy, cx⟩, hloc⟩ := getCatLocation_isSome hrect ⟨ay, ax, c, hag, hc⟩
  obtain ⟨c', hbind', hc'⟩ := getCatLocation_spec hloc
  obtain ⟨hy, hx⟩ := cat_positions_eq hcat hbind' hc' hag hc
  rw [hloc, hy, hx]

/-- C3: blocked moves are no-ops.  On a (rectangular) grid with exactly one
cat and a walled border, moving into a wall, or pushing food whose landing
cell is wall/food/full-bowl, returns a grid identical to the input. -/
theorem moveCat_blocked_noop {grid : LevelGrid} {ay ax : Nat} {c : Cell}
    (hcat : catCount grid = 1) (hrect : Rectangular grid) (hborder : Bordered grid)
    (hag : getCell grid (ay : Int) (ax : Int) = some c) (hc : isCatCell c = true)
    {dy dx : Int} (hd : (dy, dx) ∈ dirs)
    (hblock : getCell grid ((ay : Int) + dy) ((ax : Int) + dx) = some Cell.wall ∨
      ∃ mtc, getCell grid ((ay : Int) + dy) ((ax : Int) + dx) = some mtc ∧
        (mtc = Cell.food ∨ mtc = Cell.fullBowl) ∧
        ∃ fc, getCell grid ((ay : Int) + dy + dy) ((ax : Int) + dx + dx) = some fc ∧
          (fc = Cell.wall ∨ fc = Cell.food ∨ fc = Cell.fullBowl)) :
    moveCat grid dy dx = some grid := by
  have hbind : (grid[ay]?.bind fun r => r[ax]?) = some c := by
    rw [← getCell_natCast]
    exact hag
  have hloc := getCatLocation_eq hrect hcat hbind hc
  have hrcat : readCell grid (ay : Int) (ax : Int) = some (some c) :=
    readCell_of_getCell hag
  unfold moveCat
  split
  next heq => rw [hloc] at heq; cases heq
  next cy cx heq =>
    rw [hloc] at heq
    injection heq with heq'
    obtain ⟨hy, hx⟩ : ay = cy ∧ ax = cx :=
      ⟨congrArg Prod.fst heq', congrArg Prod.snd heq'⟩
    subst hy
    subst hx
    split
    next heq2 => rw [hrcat] at heq2; cases heq2
    next currentCell heq2 =>
      rw [hrcat] at heq2
      injection heq2 with heq2'
      subst heq2'
      simp only []
      split
      next heq3 =>
        rcases hblock with hwall | ⟨mtc', hmtc', hfoodval, fc, hfc, hfcval⟩
        · rw [readCell_of_getCell hwall] at heq3
          cases heq3
        · rw [readCell_of_getCell hmtc'] at heq3
          cases heq3
      next moveToCell heq3 =>
        rcases hblock with hwall | ⟨mtc', hmtc', hfoodval, fc, hfc, hfcval⟩
        · rw [readCell_of_getCell hwall] at heq3
          injection heq3 with he
          subst he
          rw [if_neg (by decide), if_neg (by decide)]
        · rw [readCell_of_getCell hmtc'] at heq3
          injection heq3 with he
          subst he
          rw [if_neg (by rcases hfoodval with h | h <;> subst h <;> decide),
            if_pos (by rcases hfoodval with h | h <;> simp [h])]
          split
          next heq4 =>
            rw [readCell_of_getCell hfc] at heq4
            cases heq4
          next newFoodCell heq4 =>
            rw [readCell_of_getCell hfc] at heq4
            injection heq4 with he2
            subst he2
            rw [if_neg (by rcases hfcval with h | h | h <;> subst h <;> decide)]

/-- C4: push postcondition.  On a (rectangular) grid with exactly one cat,
pushing food onto a free landing cell fills that cell (`EMPTY → FOOD`,
`BOWL → FULL_BOWL`), puts the cat on the vacated food cell with its bowl-ness
preserved (`FOOD → CAT`, `FULL_BOWL → CAT_BOWL`), and vacates the cat's
origin cell (`CAT → EMPTY`, `CAT_BOWL → BOWL`). -/
theorem moveCat_push_spec {grid : LevelGrid} {ay ax : Nat} {c mtc fc : Cell}
    (hcat : catCount grid = 1) (hrect : Rectangular grid)
    (hag : getCell grid (ay : Int) (ax : Int) = some c) (hc : isCatCell c = true)
    {dy dx : Int} (hd : (dy, dx) ∈ dirs)
    (hmtc : getCell grid ((ay : Int) + dy) ((ax : Int) + dx) = some mtc)
    (hfood : mtc = Cell.food ∨ mtc = Cell.fullBowl)
    (hfc : getCell grid ((ay : Int) + dy + dy) ((ax : Int) + dx + dx) = some fc)
    (hland : fc = Cell.empty ∨ fc = Cell.bowl) :
    ∃ g', moveCat grid dy dx = some g' ∧
      getCell g' ((ay : Int) + dy + dy) ((ax : Int) + dx + dx)
        = some (if fc = Cell.empty then Cell.food else Cell.fullBowl) ∧
      getCell g' ((ay : Int) + dy) ((ax : Int) + dx)
        = some (if mtc = Cell.fullBowl then Cell.catBowl else Cell.cat) ∧
      getCell g' (ay : Int) (ax : Int)
        = some (if c = Cell.cat then Cell.empty else Cell.bowl) := by
  have hbind : (grid[ay]?.bind fun r => r[ax]?) = some c := by
    rw [← getCell_natCast]
    exact hag
  have hloc := getCatLocation_eq hrect hcat hbind hc
  have hrc : removeCat c = some (if c = Cell.cat then Cell.empty else Cell.bowl) := by
    cases c <;> simp_all [isCatCell, removeCat]
  have hne12 : ¬((ay : Int) = (ay : Int) + dy ∧ (ax : Int) = (ax : Int) + dx) := by
    intro ⟨e1, e2⟩
    rw [← e1, ← e2, hag] at hmtc
    injection hmtc with hcm
    rcases hfood with h | h <;> subst h <;> rw [hcm] at hc <;>
      exact absurd hc (by decide)
  have hne13 : ¬((ay : Int) = (ay : Int) + dy + dy ∧
      (ax : Int) = (ax : Int) + dx + dx) := by
    intro ⟨e1, e2⟩
    rw [← e1, ← e2, hag] at hfc
    injection hfc with hcm
    rcases hland with h | h <;> subst h <;> rw [hcm] at hc <;>
      exact absurd hc (by decide)
  have hne23 : ¬((ay : Int) + dy = (ay : Int) + dy + dy ∧
      (ax : Int) + dx = (ax : Int) + dx + dx) := by
    intro ⟨e1, e2⟩
    rw [← e1, ← e2, hmtc] at hfc
    injection hfc with hcm
    rcases hfood with h | h <;> rcases hland with h' | h' <;>
      subst h <;> subst h' <;> cases hcm
  have he2 : getCell (setCell grid (ay : Int) (ax : Int)
      (if c = Cell.cat then Cell.empty else Cell.bowl))
      ((ay : Int) + dy) ((ax : Int) + dx) = some mtc := by
    rw [getCell_setCell_ne _ hne12]
    exact hmtc
  have he3 : getCell (setCell (setCell grid (ay : Int) (ax : Int)
      (if c = Cell.cat then Cell.empty else Cell.bowl))
      ((ay : Int) + dy) ((ax : Int) + dx)
      (if mtc = Cell.fullBowl then Cell.catBowl else Cell.cat))
      ((ay : Int) + dy + dy) ((ax : Int) + dx + dx) = some fc := by
    rw [getCell_setCell_ne _ hne23, getCell_setCell_ne _ hne13]
    exact hfc
  refine ⟨setCell (setCell (setCell grid (ay : Int) (ax : Int)
      (if c = Cell.cat then Cell.empty else Cell.bowl))
      ((ay : Int) + dy) ((ax : Int) + dx)
      (if mtc = Cell.fullBowl then Cell.catBowl else Cell.cat))
      ((ay : Int) + dy + dy) ((ax : Int) + dx + dx)
      (if fc = Cell.empty then Cell.food else Cell.fullBowl), ?_, ?_, ?_, ?_⟩
  · unfold moveCat
    split
    next heq => rw [hloc] at heq; cases heq
    next cy cx heq =>
      rw [hloc] at heq
      injection heq with heq'
      obtain ⟨hy, hx⟩ : ay = cy ∧ ax = cx :=
        ⟨congrArg Prod.fst heq', congrArg Prod.snd heq'⟩
      subst hy
      subst hx
      split
      next heq2 => rw [readCell_of_getCell hag] at heq2; cases heq2
      next currentCell heq2 =>
        rw [readCell_of_getCell hag] at heq2
        injection heq2 with heq2'
        subst heq2'
        simp only []
        split
        next heq3 => rw [readCell_of_getCell hmtc] at heq3; cases heq3
        next moveToCell heq3 =>
          rw [readCell_of_getCell hmtc] at heq3
          injection heq3 with he
          subst he
          rw [if_neg (by rcases hfood with h | h <;> subst h <;> decide),
            if_pos (by rcases hfood with h | h <;> simp [h])]
          split
          next heq4 => rw [readCell_of_getCell hfc] at heq4; cases heq4
          next newFoodCell heq4 =>
            rw [readCell_of_getCell hfc] at heq4
            injection heq4 with he'
            subst he'
            rw [if_pos (by rcases hland with h | h <;> simp [h])]
            rw [show (some c).bind removeCat = removeCat c from rfl, hrc]
            have haddeq : (if (some mtc : Option Cell) = some Cell.fullBowl
                  then addCat Cell.bowl else addCat Cell.empty)
                = some (if mtc = Cell.fullBowl then Cell.catBowl else Cell.cat) := by
              by_cases hmb : mtc = Cell.fullBowl
              · rw [if_pos (by rw [hmb]), if_pos hmb]
                rfl
              · rw [if_neg (fun hcontra => hmb (Option.some.inj hcontra)),
                  if_neg hmb]
                rfl
            have hwr : (if (some fc : Option Cell) = some Cell.empty
                  then Cell.food else Cell.fullBowl)
                = (if fc = Cell.empty then Cell.food else Cell.fullBowl) := by
              by_cases hfe : fc = Cell.empty
              · rw [if_pos (by rw [hfe]), if_pos hfe]
              · rw [if_neg (fun hcontra => hfe (Option.some.inj hcontra)),
                  if_neg hfe]
            rw [haddeq, hwr]
  · exact getCell_setCell_self he3 _
  · rw [getCell_setCell_ne _ (fun hcontra => hne23 ⟨hcontra.1.symm, hcontra.2.symm⟩)]
    exact getCell_setCell_self he2 _
  · rw [getCell_setCell_ne _ (fun hcontra => hne13 ⟨hcontra.1.symm, hcontra.2.symm⟩),
      getCell_setCell_ne _ (fun hcontra => hne12 ⟨hcontra.1.symm, hcontra.2.symm⟩)]
    exact getCell_setCell_self hag _

/-! ## Test scenarios from the specification -/

/-- Scenario A: `#####` / `#.$@#` / `#####` (solvable in one move). -/
def scenarioA : LevelGrid :=
  [[.wall, .wall, .wall, .wall, .wall],
   [.wall, .bowl, .food, .cat, .wall],
   [.wall, .wall, .wall, .wall, .wall]]

/-- Scenario A after pushing the food left: `#####` / `#*@ #` / `#####`. -/
def scenarioA' : LevelGrid :=
  [[.wall, .wall, .wall, .wall, .wall],
   [.wall, .fullBowl, .cat, .empty, .wall],
   [.wall, .wall, .wall, .wall, .wall]]

/-- Scenario B: `#####` / `#.@$#` / `#####` (deadlocked, unsolvable). -/
def scenarioB : LevelGrid :=
  [[.wall, .wall, .wall, .wall, .wall],
   [.wall, .bowl, .cat, .food, .wall],
   [.wall, .wall, .wall, .wall, .wall]]

/-! ## The claims -/

/-- C1: BFS optimality.  If `solve start` returns `m`, then some sequence of
`m` `moveCat` applications in the four directions reaches a grid with zero
unfilled bowls, and no shorter sequence reaches such a grid. -/
theorem claim_C1_bfs_optimality {start : LevelGrid} {m : Nat}
    (h : solve start = some (some m)) :
    (∃ g, ReachN start m g ∧ getEmptyBowlCount g = 0) ∧
    (∀ k g, k < m → ReachN start k g → getEmptyBowlCount g ≠ 0) := by
  obtain ⟨hex, hmin⟩ := solve_some_spec h
  refine ⟨hex, fun k g hk hre hwin => ?_⟩
  have := hmin k g hre hwin
  omega

theorem claim_C1_witness :
    (∃ g, ReachN scenarioA 1 g ∧ getEmptyBowlCount g = 0) ∧
    (∀ k g, k < 1 → ReachN scenarioA k g → getEmptyBowlCount g ≠ 0) :=
  claim_C1_bfs_optimality (by decide)

/-- C2: the solver signals unsolvability only through its regular return
value.  On a rectangular, wall-bordered single-cat grid (the shape every
level in the data model has), `solve` returns `null` exactly when no sequence
of moves reaches a grid with zero unfilled bowls, and it never takes the
exception path — the border keeps every row read of every explored move in
range, so the TypeError that an unwalled edge row would raise cannot occur. -/
theorem claim_C2_unsolvable_signal (grid : LevelGrid) (hrect : Rectangular grid)
    (hborder : Bordered grid) (hcat : catCount grid = 1) :
    (solve grid = some none ↔
      ∀ m g', ReachN grid m g' → getEmptyBowlCount g' ≠ 0) ∧
    solve grid ≠ none := by
  have hne := solve_ne_none hrect (by omega) ⟨hborder.1, hborder.2.1⟩
  refine ⟨⟨fun h => solve_none_spec h, fun h => ?_⟩, hne⟩
  match hs : solve grid with
  | none => exact absurd hs hne
  | some none => rfl
  | some (some d) =>
    exfalso
    obtain ⟨⟨g, hre, hwin⟩, _⟩ := solve_some_spec hs
    exact h d g hre hwin

theorem claim_C2_witness :
    ((solve scenarioB = some none ↔
      ∀ m g', ReachN scenarioB m g' → getEmptyBowlCount g' ≠ 0) ∧
    solve scenarioB ≠ none) :=
  claim_C2_unsolvable_signal scenarioB (by decide) (by decide) (by decide)

theorem claim_C3_witness : moveCat scenarioB 0 1 = some scenarioB :=
  @moveCat_blocked_noop scenarioB 1 2 Cell.cat (by decide) (by decide)
    (by decide) (by decide) (by decide) 0 1 (by decide)
    (Or.inr ⟨Cell.food, by decide, Or.inl rfl, Cell.wall, by decide,
      Or.inl rfl⟩)

theorem claim_C4_witness :
    ∃ g', moveCat scenarioA 0 (-1) = some g' ∧
      getCell g' ((1 : Nat) : Int) (((3 : Nat) : Int) + (-1) + (-1))
        = some (if Cell.bowl = Cell.empty then Cell.food else Cell.fullBowl) ∧
      getCell g' ((1 : Nat) : Int) (((3 : Nat) : Int) + (-1))
        = some (if Cell.food = Cell.fullBowl then Cell.catBowl else Cell.cat) ∧
      getCell g' ((1 : Nat) : Int) ((3 : Nat) : Int)
        = some (if Cell.cat = Cell.cat then Cell.empty else Cell.bowl) := by
  have h := @moveCat_push_spec scenarioA 1 3 Cell.cat Cell.food Cell.bowl
    (by decide) (by decide) (by decide) (by decide) 0 (-1)
    (by decide) (by decide) (Or.inl rfl) (by decide) (Or.inr rfl)
  obtain ⟨g', h1, h2, h3, h4⟩ := h
  exact ⟨g', h1, h2, h3, h4⟩

/-- C5: single-agent invariant.  Every grid reachable from a valid start (a
bordered rectangular grid with exactly one cat cell) has exactly one cat
cell. -/
theorem claim_C5_single_agent (start : LevelGrid) (hrect : Rectangular start)
    (hborder : Bordered start) (hcat : catCount start = 1) :
    ∀ n g, ReachN start n g → catCount g = 1 := by
  intro n g h
  rw [ReachN_catCount h]
  exact hcat

theorem claim_C5_witness : catCount scenarioA' = 1 :=
  claim_C5_single_agent scenarioA (by decide) (by decide) (by decide) 1 scenarioA'
    (@ReachN.succ scenarioA scenarioA scenarioA' 0 0 (-1)
      (ReachN.zero scenarioA) (by decide) (by decide))

/-- C6: piece-count invariant.  Every grid reachable from a valid start has
the start's number of food cells (`FOOD` plus `FULL_BOWL`): moves relocate
pieces, never create or destroy them. -/
theorem claim_C6_piece_count (start : LevelGrid) (hrect : Rectangular start)
    (hborder : Bordered start) (hcat : catCount start = 1) :
    ∀ n g, ReachN start n g → foodCount g = foodCount start := by
  intro n g h
  exact ReachN_foodCount h

theorem claim_C6_witness : foodCount scenarioA' = foodCount scenarioA :=
  claim_C6_piece_count scenarioA (by decide) (by decide) (by decide) 1 scenarioA'
    (@ReachN.succ scenarioA scenarioA scenarioA' 0 0 (-1)
      (ReachN.zero scenarioA) (by decide) (by decide))

/-- C7: canonicalizer contract.  For grid states (all rows nonempty, as in
any level whose borders are walls), `makeGridString` is injective: two states
share a key exactly when they agree at every position. -/
theorem claim_C7_canonicalizer (a b : LevelGrid)
    (ha : ∀ r ∈ a, r ≠ []) (hb : ∀ r ∈ b, r ≠ []) :
    makeGridString a = makeGridString b ↔ a = b :=
  ⟨makeGridString_inj_rows ha hb, fun h => by rw [h]⟩

theorem claim_C7_witness :
    (makeGridString [[Cell.wall]] = makeGridString [[Cell.food]] ↔
      ([[Cell.wall]] : LevelGrid) = [[Cell.food]]) :=
  claim_C7_canonicalizer [[Cell.wall]] [[Cell.food]] (by decide) (by decide)

/-- C8: termination.  On a bordered rectangular start grid with exactly one
cat, the BFS loop runs finitely many iterations within its fuel (each
iteration retires one of finitely many canonical keys) and `solve` returns a
result — it neither diverges nor throws. -/
theorem claim_C8_termination (start : LevelGrid) (hrect : Rectangular start)
    (hborder : Bordered start) (hcat : catCount start = 1) :
    ∃ r, solve start = some r := by
  match hs : solve start with
  | none =>
    exact absurd hs (solve_ne_none hrect (by omega) ⟨hborder.1, hborder.2.1⟩)
  | some r => exact ⟨r, rfl⟩

theorem claim_C8_witness : ∃ r, solve scenarioA = some r :=
  claim_C8_termination scenarioA (by decide) (by decide) (by decide)

/-- C9: the progress evaluator returns `doom` exactly on the unsolvable
marker; otherwise, with `bestTotal = moves + minMovesRemaining`, it returns
`perfect` iff `bestTotal` equals `minMoves`, `great` iff `bestTotal` exceeds
`minMoves` by at most the fixed tolerance `8` (without being equal), and
`okay` iff it exceeds it by more than `8`. -/
theorem claim_C9_progress (minMoves moves : Nat) (minMovesRemaining : Option Nat) :
    (computeProgress minMoves moves minMovesRemaining = Progress.doom ↔
      minMovesRemaining = none) ∧
    (∀ r, minMovesRemaining = some r →
      ((computeProgress minMoves moves minMovesRemaining = Progress.perfect ↔
        moves + r = minMoves) ∧
       (computeProgress minMoves moves minMovesRemaining = Progress.great ↔
        moves + r ≠ minMoves ∧ moves + r ≤ minMoves + 8) ∧
       (computeProgress minMoves moves minMovesRemaining = Progress.okay ↔
        minMoves + 8 < moves + r))) := by
  match minMovesRemaining with
  | none => simp [computeProgress]
  | some r =>
    constructor
    · constructor
      · intro h
        exfalso
        simp only [computeProgress, GREAT_THRESHOLD] at h
        split at h
        · cases h
        · split at h
          · cases h
          · cases h
      · intro h
        cases h
    · intro r' hr'
      injection hr' with hr'
      subst hr'
      simp only [computeProgress, GREAT_THRESHOLD]
      by_cases h1 : moves + r = minMoves
      · rw [if_pos h1]
        refine ⟨?_, ?_, ?_⟩
        · exact ⟨fun _ => h1, fun _ => rfl⟩
        · exact ⟨(fun h => by cases h), fun h => absurd h1 h.1⟩
        · exact ⟨(fun h => by cases h), fun h => by omega⟩
      · rw [if_neg h1]
        by_cases h2 : moves + r ≤ minMoves + 8
        · rw [if_pos h2]
          refine ⟨?_, ?_, ?_⟩
          · exact ⟨(fun h => by cases h), fun h => absurd h h1⟩
          · exact ⟨fun _ => ⟨h1, h2⟩, fun _ => rfl⟩
          · exact ⟨(fun h => by cases h), fun h => by omega⟩
        · rw [if_neg h2]
          refine ⟨?_, ?_, ?_⟩
          · exact ⟨(fun h => by cases h), fun h => absurd h h1⟩
          · exact ⟨(fun h => by cases h), fun h => absurd h.2 h2⟩
          · exact ⟨fun _ => by omega, fun _ => rfl⟩

theorem claim_C9_witness :
    computeProgress 5 2 (some 3) = Progress.perfect ∧
    computeProgress 5 2 (some 11) = Progress.great ∧
    computeProgress 5 2 (some 12) = Progress.okay ∧
    computeProgress 5 2 none = Progress.doom := by
  refine ⟨?_, ?_, ?_, ?_⟩
  · exact ((claim_C9_progress 5 2 (some 3)).2 3 rfl).1.mpr (by decide)
  · exact ((claim_C9_progress 5 2 (some 11)).2 11 rfl).2.1.mpr (by decide)
  · exact ((claim_C9_progress 5 2 (some 12)).2 12 rfl).2.2.mpr (by decide)
  · exact (claim_C9_progress 5 2 none).1.mpr rfl

/-- C10: target-count invariant.  On a grid with exactly one cat and a walled
border, every `moveCat` in one of the four directions preserves the number of
bowl cells (`BOWL` + `FULL_BOWL` + `CAT_BOWL`); consequently the win
condition `getEmptyBowlCount = 0` holds only when the full bowls alone
account for every original bowl. -/
theorem claim_C10_target_invariant (grid : LevelGrid)
    (hcat : catCount grid = 1) (hborder : Bordered grid)
    (dy dx : Int) (hd : (dy, dx) ∈ dirs) (g' : LevelGrid)
    (h : moveCat grid dy dx = some g') :
    targetCount g' = targetCount grid ∧
    (getEmptyBowlCount g' = 0 →
      countCells (fun c => c = Cell.fullBowl) g' = targetCount grid) := by
  have hinv := targetCount_moveCat h
  refine ⟨hinv, fun hwin => ?_⟩
  have hsplit := countCells_add_of isEmptyBowlCell (fun c => c = Cell.fullBowl)
    isTargetCell (by decide) g'
  have hbc := getEmptyBowlCount_eq_countCells g'
  unfold targetCount at hinv ⊢
  omega

theorem claim_C10_witness :
    targetCount scenarioA' = targetCount scenarioA ∧
    (getEmptyBowlCount scenarioA' = 0 →
      countCells (fun c => c = Cell.fullBowl) scenarioA' = targetCount scenarioA) :=
  claim_C10_target_invariant scenarioA (by decide) (by decide) 0 (-1)
    (by decide) scenarioA' (by decide)

end CatsDogs
